import Mathlib

/-!
Shallow embedding of the aws-c-auth credential-resolution core: the profile
file parser and merge engine of source/aws_profile.c and the streaming XML
node tokenizer of source/xml_parser.c, together with theorems settling the
specification's claims.

Modelling conventions:
  - byte cursors are lists of characters (`Str`); a cursor that the C code
    advances is represented by the remaining suffix (for the XML parser, by
    an index into the fixed document, since node views keep earlier
    positions alive);
  - `aws_hash_table` keyed by strings is an association list; `aws_hash_table_put`
    replaces in place when the key is present and appends otherwise, so lookups
    agree with the hash-table semantics (key-uniqueness is carried as a `Nodup`
    hypothesis where a claim iterates a table);
  - allocation failures are not modelled (every allocation succeeds);
  - logging is not modelled (the source's logging is purely observational).
-/

namespace Aws

abbrev Str := List Char

/-! ### Character predicates (aws_profile.c) -/

/-- s_is_assignment_operator -/
def s_is_assignment_operator (c : Char) : Bool := c == '='

/-- s_is_not_assignment_operator -/
def s_is_not_assignment_operator (c : Char) : Bool := !(c == '=')

/-- s_is_identifier: A-Z a-z 0-9 backslash underscore hyphen -/
def s_is_identifier (c : Char) : Bool :=
  (decide ('A' ≤ c) && decide (c ≤ 'Z')) || (decide ('a' ≤ c) && decide (c ≤ 'z')) ||
    (decide ('0' ≤ c) && decide (c ≤ '9')) || c == '\\' || c == '_' || c == '-'

/-- s_is_whitespace -/
def s_is_whitespace (c : Char) : Bool := c == '\t' || c == '\n' || c == '\r' || c == ' '

/-- s_is_comment_token -/
def s_is_comment_token (c : Char) : Bool := c == '#' || c == ';'

/-- s_is_not_comment_token -/
def s_is_not_comment_token (c : Char) : Bool := !(s_is_comment_token c)

/-- s_is_profile_start -/
def s_is_profile_start (c : Char) : Bool := c == '['

/-- s_is_not_profile_end -/
def s_is_not_profile_end (c : Char) : Bool := !(c == ']')

/-- s_is_carriage_return -/
def s_is_carriage_return (c : Char) : Bool := c == '\r'

/-! ### Byte-cursor helpers (aws-c-common contracts used by the source) -/

/-- aws_byte_cursor_left_trim_pred -/
def leftTrimPred (s : Str) (p : Char → Bool) : Str := s.dropWhile p

/-- aws_byte_cursor_right_trim_pred -/
def rightTrimPred (s : Str) (p : Char → Bool) : Str := (s.reverse.dropWhile p).reverse

/-- aws_byte_cursor_trim_pred (both sides) -/
def trimPred (s : Str) (p : Char → Bool) : Str := leftTrimPred (rightTrimPred s p) p

/-- s_parse_by_character_predicate, returning (consumed range, advanced cursor).
The source's maximum_allowed argument is dead code: its guard reads
`maximum_allowed < result.len` while `result.len` is still 0, so the scan is
never bounded; the argument is therefore dropped here. -/
def s_parse_by_character_predicate (start : Str) (p : Char → Bool) : Str × Str :=
  (start.takeWhile p, start.dropWhile p)

/-- s_parse_by_token, returning (matched, advanced cursor). -/
def s_parse_by_token (start : Str) (token : Str) : Bool × Str :=
  if token.isPrefixOf start then (true, start.drop token.length) else (false, start)

/-! ### Association-list model of aws_hash_table -/

/-- aws_hash_table_find -/
def tableFind : List (Str × α) → Str → Option α
  | [], _ => none
  | (k2, v) :: rest, k => if k2 = k then some v else tableFind rest k

/-- aws_hash_table_put: replace in place when the key is present, else append. -/
def tablePut (t : List (Str × α)) (k : Str) (v : α) : List (Str × α) :=
  if (tableFind t k).isSome then
    t.map (fun e => if e.1 = k then (k, v) else e)
  else t ++ [(k, v)]

/-- aws_hash_table_remove -/
def tableRemove (t : List (Str × α)) (k : Str) : List (Str × α) :=
  t.filter (fun e => decide (¬ e.1 = k))

/-! ### Profile data model (aws/auth/private/aws_profile.h) -/

/-- aws_profile_property.  `value` is always an allocated string in the source
(so the `source->value` null check in s_profile_property_merge is always true);
`has_profile_prefix` is spelled `has_profile_keyword` here because of naming
constraints of the development. -/
structure ProfileProperty where
  name : Str
  value : Str
  is_empty_valued : Bool
  sub_properties : List (Str × Str)
deriving DecidableEq, Repr

/-- aws_profile -/
structure Profile where
  name : Str
  has_profile_keyword : Bool
  properties : List (Str × ProfileProperty)
deriving DecidableEq, Repr

/-- aws_profile_source_type -/
inductive ProfileSourceType where
  | config
  | credentials
  | noSource
deriving DecidableEq, Repr

/-- aws_profile_collection -/
structure ProfileCollection where
  profile_source : ProfileSourceType
  profiles : List (Str × Profile)
deriving DecidableEq, Repr

/-- aws_profile_property_new -/
def aws_profile_property_new (name value : Str) : ProfileProperty :=
  { name := name, value := value, is_empty_valued := decide (value.length = 0),
    sub_properties := [] }

/-- s_profile_property_add_continuation: concatenate old value, newline, new value. -/
def s_profile_property_add_continuation (p : ProfileProperty) (continuation_value : Str) :
    ProfileProperty :=
  { p with value := p.value ++ '\n' :: continuation_value }

/-- s_profile_property_add_sub_property: remove the key, then put. -/
def s_profile_property_add_sub_property (p : ProfileProperty) (key value : Str) :
    ProfileProperty :=
  { p with sub_properties := tablePut (tableRemove p.sub_properties key) key value }

/-- Sub-property loop of s_profile_property_merge: stomp dest keys with source entries. -/
def s_profile_property_merge_subs (dest : ProfileProperty) :
    List (Str × Str) → ProfileProperty
  | [] => dest
  | (k, v) :: rest =>
    s_profile_property_merge_subs
      { dest with sub_properties := tablePut (tableRemove dest.sub_properties k) k v } rest

/-- s_profile_property_merge: the source value (always present) overwrites the dest
value, is_empty_valued is copied from source, then sub-properties are stomped. -/
def s_profile_property_merge (dest source : ProfileProperty) : ProfileProperty :=
  s_profile_property_merge_subs
    { dest with value := source.value, is_empty_valued := source.is_empty_valued }
    source.sub_properties

/-- aws_profile_new -/
def aws_profile_new (name : Str) (hasKeyword : Bool) : Profile :=
  { name := name, has_profile_keyword := hasKeyword, properties := [] }

/-- s_profile_add_property: replaces any existing property of the same name. -/
def s_profile_add_property (profile : Profile) (key value : Str) : Profile :=
  { profile with properties := tablePut profile.properties key (aws_profile_property_new key value) }

/-- aws_profile_get_property -/
def aws_profile_get_property (profile : Profile) (key : Str) : Option ProfileProperty :=
  tableFind profile.properties key

/-- Property loop of s_profile_merge: create a missing dest property with an empty
value, then merge the source property onto it. -/
def s_profile_merge_props (dest : Profile) : List (Str × ProfileProperty) → Profile
  | [] => dest
  | (k, sp) :: rest =>
    let dp := match tableFind dest.properties k with
      | some p => p
      | none => aws_profile_property_new k []
    s_profile_merge_props
      { dest with properties := tablePut dest.properties k (s_profile_property_merge dp sp) }
      rest

/-- s_profile_merge: copies has_profile_prefix from source, then merges properties. -/
def s_profile_merge (dest source : Profile) : Profile :=
  s_profile_merge_props { dest with has_profile_keyword := source.has_profile_keyword }
    source.properties

/-- aws_profile_collection_get_profile -/
def aws_profile_collection_get_profile (c : ProfileCollection) (name : Str) : Option Profile :=
  tableFind c.profiles name

/-- Profile loop of s_profile_collection_merge: create a missing dest profile
(inheriting the prefix flag from source), then s_profile_merge onto it. -/
def s_profile_collection_merge_profiles (dest : ProfileCollection) :
    List (Str × Profile) → ProfileCollection
  | [] => dest
  | (k, sp) :: rest =>
    let dp := match tableFind dest.profiles k with
      | some p => p
      | none => aws_profile_new k sp.has_profile_keyword
    s_profile_collection_merge_profiles
      { dest with profiles := tablePut dest.profiles k (s_profile_merge dp sp) } rest

/-- s_profile_collection_merge -/
def s_profile_collection_merge (dest source : ProfileCollection) : ProfileCollection :=
  s_profile_collection_merge_profiles dest source.profiles

/-- aws_profile_collection_new_from_merge: fresh AWS_PST_NONE collection, config
merged in first, credentials merged on top. -/
def aws_profile_collection_new_from_merge (config credentials : Option ProfileCollection) :
    ProfileCollection :=
  let merged : ProfileCollection := { profile_source := .noSource, profiles := [] }
  let merged2 := match config with
    | some c => s_profile_collection_merge merged c
    | none => merged
  match credentials with
  | some c => s_profile_collection_merge merged2 c
  | none => merged2

/-! ### Profile file parser (aws_profile.c) -/

/-- s_default_profile_name -/
def defaultProfileName : Str := "default".toList

/-- s_is_default_profile_name -/
def s_is_default_profile_name (n : Str) : Bool := n == defaultProfileName

/-- s_profile_token -/
def profileToken : Str := "profile".toList

/-- s_is_comment_line: the source reads the first byte unconditionally; its caller
has already ruled out the empty line, so the empty case here is unreachable. -/
def s_is_comment_line (line : Str) : Bool :=
  match line with
  | c :: _ => s_is_comment_token c
  | [] => false

/-- s_is_whitespace_line -/
def s_is_whitespace_line (line : Str) : Bool := (leftTrimPred line s_is_whitespace).isEmpty

/-- s_trim_trailing_comment: everything before the first comment token. -/
def s_trim_trailing_comment (line : Str) : Str :=
  (s_parse_by_character_predicate line s_is_not_comment_token).1

/-- s_trim_trailing_whitespace_comment: scan forward, stopping at the first
whitespace character whose successor is a comment token; that whitespace and
everything after it is dropped. -/
def s_trim_trailing_whitespace_comment : Str → Str
  | [] => []
  | c :: rest =>
    if s_is_whitespace c = true ∧ s_is_comment_token (rest.headD 'x') = true ∧ rest ≠ [] then []
    else c :: s_trim_trailing_whitespace_comment rest

/-- aws_auth profile parse error severities held in the context (zero-initialised,
AWS_AUTH_PROFILE_PARSE_RECOVERABLE_ERROR, AWS_AUTH_PROFILE_PARSE_FATAL_ERROR). -/
inductive ParseErrorState where
  | noError
  | recoverable
  | fatal
deriving DecidableEq, Repr

/-- profile_file_parse_context.  The current profile and current property pointers
are modelled by the names of the objects they point at (names are unique keys in
their tables); purely diagnostic fields (file path, line number, line text) are
not modelled. -/
structure ParseContext where
  profile_collection : ProfileCollection
  current_profile : Option Str
  current_property : Option Str
  parse_error : ParseErrorState
  has_seen_profile : Bool
deriving DecidableEq, Repr

/-- In-place mutation of the profile object the current-profile pointer refers to. -/
def collUpdateProfile (c : ProfileCollection) (profName : Str) (f : Profile → Profile) :
    ProfileCollection :=
  { c with profiles := c.profiles.map (fun e => if e.1 = profName then (e.1, f e.2) else e) }

/-- In-place mutation of the property object the current-property pointer refers to. -/
def collUpdateProperty (c : ProfileCollection) (profName propName : Str)
    (f : ProfileProperty → ProfileProperty) : ProfileCollection :=
  collUpdateProfile c profName (fun prof =>
    let props2 := prof.properties.map (fun e => if e.1 = propName then (e.1, f e.2) else e)
    { prof with properties := props2 })

/-- Helper for the default-profile special cases: existing profile's prefix flag. -/
def existingHasKeyword : Option Profile → Bool
  | some p => p.has_profile_keyword
  | none => false

/-- s_profile_collection_add_profile.  Returns the updated collection and the new
current profile (none exactly when an unprefixed default declaration is superseded
by an existing prefixed one in a config collection). -/
def s_profile_collection_add_profile (c : ProfileCollection) (profile_name : Str)
    (hasKeyword : Bool) : ProfileCollection × Option Str :=
  let existing := tableFind c.profiles profile_name
  let finish := fun (c2 : ProfileCollection) (ex : Option Profile) =>
    match ex with
    | some _ => (c2, some profile_name)
    | none =>
      let t2 := tablePut c2.profiles profile_name (aws_profile_new profile_name hasKeyword)
      ({ c2 with profiles := t2 }, some profile_name)
  if c.profile_source = .config ∧ s_is_default_profile_name profile_name = true then
    if hasKeyword = false ∧ existingHasKeyword existing = true then
      (c, none)
    else if hasKeyword = true ∧ existing.isSome = true ∧ existingHasKeyword existing = false then
      finish { c with profiles := tableRemove c.profiles profile_name } none
    else finish c existing
  else finish c existing

/-- s_parse_profile_declaration.  Returns (line handled, updated context).  The
has-seen-profile flag is set and current profile/property cleared immediately
after the opening bracket is recognised, before any validation. -/
def s_parse_profile_declaration (line : Str) (ctx0 : ParseContext) : Bool × ParseContext :=
  let profile_line_cursor := s_trim_trailing_comment line
  let profile_cursor0 := rightTrimPred profile_line_cursor s_is_whitespace
  let bp := s_parse_by_character_predicate profile_cursor0 s_is_profile_start
  if bp.1.length = 0 then (false, ctx0)
  else
    let ctx := { ctx0 with has_seen_profile := true, current_profile := none, current_property := none }
    let cur1 := (s_parse_by_character_predicate bp.2 s_is_whitespace).2
    let backtrack_cursor := cur1
    let tk := s_parse_by_token cur1 profileToken
    -- short-circuit &&: whitespace is only consumed when the token matched;
    -- a partial match rewinds to the backtrack cursor
    let kwScan := if tk.1 then
        let wp := s_parse_by_character_predicate tk.2 s_is_whitespace
        if wp.1.length > 0 then (true, wp.2) else (false, backtrack_cursor)
      else (false, backtrack_cursor)
    let has_kw := kwScan.1
    if has_kw = true ∧ ctx.profile_collection.profile_source = .credentials then
      (true, { ctx with parse_error := .recoverable })
    else
      let cur2 := if has_kw then (s_parse_by_character_predicate kwScan.2 s_is_whitespace).2
        else kwScan.2
      let np := s_parse_by_character_predicate cur2 s_is_identifier
      if np.1.length = 0 then (true, { ctx with parse_error := .recoverable })
      else if ctx.profile_collection.profile_source = .config ∧ has_kw = false ∧
          s_is_default_profile_name np.1 = false then
        (true, { ctx with parse_error := .recoverable })
      else
        let cur3 := (s_parse_by_character_predicate np.2 s_is_whitespace).2
        let ep := s_parse_by_character_predicate cur3 s_is_not_profile_end
        if ep.2.length = 0 then (true, { ctx with parse_error := .fatal })
        else if ep.1.length > 0 then (true, { ctx with parse_error := .recoverable })
        else
          let ar := s_profile_collection_add_profile ctx.profile_collection np.1 has_kw
          (true, { ctx with profile_collection := ar.1, current_profile := ar.2 })

/-- s_parse_property_continuation.  Returns (line handled, updated context).  The
continuation is appended to the current property's value first; the (unchanged)
is_empty_valued flag then decides whether a sub-property is also parsed. -/
def s_parse_property_continuation (line : Str) (ctx : ParseContext) : Bool × ParseContext :=
  let continuation_cursor0 := rightTrimPred line s_is_whitespace
  let wsp := s_parse_by_character_predicate continuation_cursor0 s_is_whitespace
  if wsp.1.length = 0 then (false, ctx)
  else
    let cc := wsp.2
    if cc.length = 0 then (true, { ctx with parse_error := .recoverable })
    else
      match ctx.current_profile, ctx.current_property with
      | some profName, some propName =>
        let coll2 := collUpdateProperty ctx.profile_collection profName propName
          (fun p => s_profile_property_add_continuation p cc)
        let ctx2 := { ctx with profile_collection := coll2 }
        -- the pointer lookups never fail in the source; none-cases are unreachable
        let emptyFlag :=
          match aws_profile_collection_get_profile ctx2.profile_collection profName with
          | some prof =>
            match aws_profile_get_property prof propName with
            | some prop => prop.is_empty_valued
            | none => false
          | none => false
        if emptyFlag then
          let kp := s_parse_by_character_predicate cc s_is_not_assignment_operator
          if kp.1.length = 0 then (true, { ctx2 with parse_error := .fatal })
          else
            let ap := s_parse_by_character_predicate kp.2 s_is_assignment_operator
            if ap.1.length = 0 then (true, { ctx2 with parse_error := .fatal })
            else
              let trimmed_key := rightTrimPred kp.1 s_is_whitespace
              let id_check := trimPred trimmed_key s_is_identifier
              if id_check.length > 0 then (true, { ctx2 with parse_error := .recoverable })
              else
                let vp := s_parse_by_character_predicate ap.2 s_is_whitespace
                let coll3 := collUpdateProperty ctx2.profile_collection profName propName
                  (fun p => s_profile_property_add_sub_property p trimmed_key vp.2)
                (true, { ctx2 with profile_collection := coll3 })
        else (true, ctx2)
      | _, _ => (true, { ctx with parse_error := .fatal })

/-- s_parse_property.  Returns (line handled, updated context); every line reaching
it is handled. -/
def s_parse_property (line : Str) (ctx0 : ParseContext) : Bool × ParseContext :=
  let property_line_cursor := s_trim_trailing_whitespace_comment line
  let property_cursor := rightTrimPred property_line_cursor s_is_whitespace
  let ctx := { ctx0 with current_property := none }
  let kp := s_parse_by_character_predicate property_cursor s_is_not_assignment_operator
  if kp.1.length = 0 then (true, { ctx with parse_error := .fatal })
  else
    let trimmed_key := rightTrimPred kp.1 s_is_whitespace
    let id_check := trimPred trimmed_key s_is_identifier
    if id_check.length > 0 then (true, { ctx with parse_error := .recoverable })
    else
      let ap := s_parse_by_character_predicate kp.2 s_is_assignment_operator
      if ap.1.length = 0 then (true, { ctx with parse_error := .fatal })
      else
        let vp := s_parse_by_character_predicate ap.2 s_is_whitespace
        match ctx.current_profile with
        | some profName =>
          (true, { ctx with
            profile_collection := collUpdateProfile ctx.profile_collection profName
              (fun prof => s_profile_add_property prof trimmed_key vp.2),
            current_property := some trimmed_key })
        | none =>
          if ctx.has_seen_profile then (true, { ctx with parse_error := .recoverable })
          else (true, { ctx with parse_error := .fatal })

/-- s_parse_and_apply_line_to_profile_collection: strip the carriage return, skip
blank/comment/whitespace lines, then try the three classifiers in order. -/
def s_parse_and_apply_line_to_profile_collection (ctx : ParseContext) (line_cursor : Str) :
    ParseContext :=
  let line := rightTrimPred line_cursor s_is_carriage_return
  if line.length = 0 ∨ s_is_comment_line line = true ∨ s_is_whitespace_line line = true then ctx
  else
    let r1 := s_parse_profile_declaration line ctx
    if r1.1 then r1.2
    else
      let r2 := s_parse_property_continuation line ctx
      if r2.1 then r2.2
      else
        let r3 := s_parse_property line ctx
        if r3.1 then r3.2
        else { ctx with parse_error := .fatal }

/-- aws_byte_cursor_next_split iteration over the whole buffer, modelled as a
split on the delimiter (the buffer after the last delimiter is a final segment,
possibly empty). -/
def splitOnChar (sep : Char) : Str → List Str
  | [] => [[]]
  | c :: rest =>
    if c = sep then [] :: splitOnChar sep rest
    else
      match splitOnChar sep rest with
      | [] => [[c]]
      | l :: ls => (c :: l) :: ls

/-- Inverse of splitOnChar for newline-free lines, used to build concrete buffers. -/
def joinLines : List Str → Str
  | [] => []
  | [l] => l
  | l :: ls => l ++ '\n' :: joinLines ls

/-- The line loop of s_aws_profile_collection_new_internal: abort with no
collection as soon as a line leaves a fatal parse error. -/
def parseLinesGo : ParseContext → List Str → Option ProfileCollection
  | ctx, [] => some ctx.profile_collection
  | ctx, l :: rest =>
    let ctx2 := s_parse_and_apply_line_to_profile_collection ctx l
    if ctx2.parse_error = .fatal then none else parseLinesGo ctx2 rest

/-- Zero-initialised parse context over a fresh collection of the given source. -/
def initialParseContext (source : ProfileSourceType) : ParseContext :=
  { profile_collection := { profile_source := source, profiles := [] },
    current_profile := none, current_property := none,
    parse_error := .noError, has_seen_profile := false }

/-- s_aws_profile_collection_new_internal -/
def s_aws_profile_collection_new_internal (buffer : Str) (source : ProfileSourceType) :
    Option ProfileCollection :=
  parseLinesGo (initialParseContext source) (splitOnChar '\n' buffer)

/-- aws_profile_collection_new_from_buffer -/
def aws_profile_collection_new_from_buffer (buffer : Str) (source : ProfileSourceType) :
    Option ProfileCollection :=
  s_aws_profile_collection_new_internal buffer source

/-- No whitespace-then-comment pair occurs inside the line. -/
def NoWsCommentPair : Str → Prop
  | [] => True
  | [_] => True
  | a :: b :: t => ¬(s_is_whitespace a = true ∧ s_is_comment_token b = true) ∧
      NoWsCommentPair (b :: t)

def sampleProfA : Profile :=
  { name := ['p'], has_profile_keyword := true,
    properties := [( ['k'], aws_profile_property_new ['k'] ['a'])] }

/-- Sample credentials-side profile objects for the C1 witness. -/
def sampleProfB : Profile :=
  { name := ['p'], has_profile_keyword := false,
    properties := [( ['k'], aws_profile_property_new ['k'] ['b'])] }

/-- Sample config collection for the C1 witness. -/
def sampleCollA : ProfileCollection :=
  { profile_source := .config, profiles := [( ['p'], sampleProfA)] }

/-- Sample credentials collection for the C1 witness. -/
def sampleCollB : ProfileCollection :=
  { profile_source := .credentials, profiles := [( ['p'], sampleProfB)] }

/-! ### Line-shape helpers used to state the parser claims -/

/-- The line (after carriage-return stripping) starts with an opening bracket,
which is exactly the condition under which the declaration classifier claims it. -/
def headBracketB (l : Str) : Bool :=
  match rightTrimPred l s_is_carriage_return with
  | [] => false
  | c :: _ => c == '['

/-- A property key: a nonempty run of identifier characters. -/
def ValidKey (k : Str) : Prop := k ≠ [] ∧ ∀ c ∈ k, s_is_identifier c = true

/-- A plain property value: no whitespace, no comment tokens, no assignment
operator, so the stored value is the literal text. -/
def ValidValue (v : Str) : Prop :=
  ∀ c ∈ v, s_is_whitespace c = false ∧ s_is_comment_token c = false ∧
    s_is_not_assignment_operator c = true

/-- A property-definition line of the form key=value. -/
def propDefLine (k v : Str) : Str := k ++ '=' :: v

/-- Folding a run of property definitions onto a profile object. -/
def applyProfileProps (prof : Profile) (P : List (Str × Str)) : Profile :=
  P.foldl (fun pr e => s_profile_add_property pr e.1 e.2) prof

/-- Folding a run of property definitions into the collection through the current
profile pointer. -/
def applyPropsColl (c : ProfileCollection) (pn : Str) (P : List (Str × Str)) :
    ProfileCollection :=
  P.foldl (fun c2 e => collUpdateProfile c2 pn
    (fun prof => s_profile_add_property prof e.1 e.2)) c

/-- The current property after a run of property definitions: the last key. -/
def lastKeyOpt (P : List (Str × Str)) (dflt : Option Str) : Option Str :=
  P.foldl (fun _ e => some e.1) dflt

/-- Lines of a config file declaring the prefixed default profile with properties
P1 and then the unprefixed default profile with properties P2. -/
def configLinesPrefixedFirst (P1 P2 : List (Str × Str)) : List Str :=
  "[profile default]".toList ::
    (P1.map (fun e => propDefLine e.1 e.2) ++
      ("[default]".toList :: P2.map (fun e => propDefLine e.1 e.2)))

/-- Lines of a config file declaring the unprefixed default profile with
properties P2 and then the prefixed default profile with properties P1. -/
def configLinesUnprefixedFirst (P1 P2 : List (Str × Str)) : List Str :=
  "[default]".toList ::
    (P2.map (fun e => propDefLine e.1 e.2) ++
      ("[profile default]".toList :: P1.map (fun e => propDefLine e.1 e.2)))

instance (k : Str) : Decidable (ValidKey k) := by
  unfold ValidKey
  infer_instance

instance (v : Str) : Decidable (ValidValue v) := by
  unfold ValidValue
  infer_instance

/-! ### C5 line shapes -/

/-- A property line whose value is followed by a whitespace-prefixed comment. -/
def lineWsComment (k v c : Str) : Str := k ++ ' ' :: '=' :: ' ' :: (v ++ ' ' :: '#' :: c)

/-- A property line whose value runs straight into a hash with no whitespace. -/
def lineBareComment (k v c : Str) : Str := k ++ ' ' :: '=' :: ' ' :: (v ++ '#' :: c)

/-- An empty-valued property definition line: key followed by space and equals. -/
def emptyPropLine (K : Str) : Str := K ++ [' ', '=']

/-- An indented continuation line of the form key equals value. -/
def contLine (k v : Str) : Str := ' ' :: (k ++ ' ' :: '=' :: ' ' :: v)

/-- The parse context reached after the single declaration line "[p]" in a
credentials-source parse. -/
def c3ctx1 : ParseContext :=
  { profile_collection := { profile_source := .credentials, profiles := [(['p'], aws_profile_new ['p'] false)] },
    current_profile := some ['p'], current_property := none,
    parse_error := .noError, has_seen_profile := true }

/-- The test that routes a line into the profile-declaration handler: after
carriage-return, comment and trailing-whitespace trimming the line starts
with an opening bracket. -/
def declTriggers (l : Str) : Bool :=
  decide (((rightTrimPred (s_trim_trailing_comment (rightTrimPred l s_is_carriage_return)) s_is_whitespace).takeWhile s_is_profile_start).length ≠ 0)

/-! ### XML parser (xml_parser.c)

The document is a fixed character buffer and the parser byte cursor is an
offset into it.  aws_byte_cursor_advance never moves past the end: a request
larger than the remaining bytes — including the huge values produced by a
wrapped (negative) size_t pointer difference — leaves the cursor unchanged.
Callbacks are modelled as pure folds over the user data; the source cb_stack
is read back only by s_node_next_sibling for the callback pushed by the very
same parse call, so the stack itself is not represented. -/

inductive XmlError
  | malformedInput
deriving DecidableEq, Repr

inductive XmlStatus
  | ok
  | err
deriving DecidableEq, Repr

structure aws_xml_attribute where
  name : Str
  value : Str
deriving DecidableEq, Repr

/-- aws_xml_node: doc_at_body is the offset of the byte right after the node
declaration's closing angle bracket. -/
structure aws_xml_node where
  name : Str
  attributes : List aws_xml_attribute
  doc_at_body : Nat
deriving DecidableEq, Repr

structure XmlParserState (α : Type) where
  doc : Str
  pos : Nat
  user : α
  raised : List XmlError

/-- aws_raise_error: record the error, most recent first. -/
def aws_raise_error (st : XmlParserState α) (e : XmlError) : XmlParserState α :=
  { st with raised := e :: st.raised }

/-- memchr within the remaining bytes of the cursor; result is an absolute
offset. -/
def memchrIdx (doc : Str) (pos : Nat) (c : Char) : Option Nat :=
  match (doc.drop pos).findIdx? (fun d => d = c) with
  | some i => some (pos + i)
  | none => none

/-- aws_byte_cursor_advance: a request beyond the remaining length is a
no-op. -/
def cursorAdvance (len pos amount : Nat) : Nat :=
  if amount ≤ len - pos then pos + amount else pos

/-- strstr: first offset at which the needle occurs in the haystack. -/
def findSubstringIdx (hay needle : Str) : Option Nat :=
  (List.range (hay.length + 1)).find? (fun i => needle.isPrefixOf (hay.drop i))

def s_trim_quotes_fn (c : Char) : Bool := c == '"'

/-- s_load_node_decl: the name is the first space-separated token of the
declaration body; each further token splitting into at most two pieces on the
equals sign (the source's two-element split list rejects more) contributes an
attribute whose value is trimmed of double quotes. -/
def s_load_node_decl (decl_body : Str) (body_pos : Nat) : aws_xml_node :=
  let splits := splitOnChar ' ' decl_body
  let attributes := (splits.drop 1).filterMap (fun p =>
    let av := splitOnChar '=' p
    if av.length ≤ 2 then
      some { name := av.headD [], value := trimPred (av.getD 1 []) s_trim_quotes_fn }
    else none)
  { name := splits.headD [], attributes := attributes, doc_at_body := body_pos }

/-- The preamble loop of aws_xml_parser_parse: each iteration either exits on
an exhausted document, errors when no angle bracket is found, breaks at the
first non-preamble tag, or burns a preamble tag.  Every iteration advances or
makes the next one exit, so the fuel 2*len+2 passed by the entry point
strictly dominates the iteration count. -/
def preambleLoop : Nat → XmlParserState α → Except (XmlParserState α) (XmlParserState α)
  | 0, st => .ok st
  | fuel + 1, st =>
    if st.doc.length - st.pos = 0 then .ok st
    else
      match memchrIdx st.doc st.pos '<' with
      | none => .error (aws_raise_error st .malformedInput)
      | some start =>
        match memchrIdx st.doc st.pos '>' with
        | none => .error (aws_raise_error st .malformedInput)
        | some location =>
          let st2 := { st with pos := cursorAdvance st.doc.length st.pos (start - st.pos) }
          match st2.doc.get? (st2.pos + 1) with
          | some c =>
            if c = '?' ∨ c = '!' then
              let adv := if st2.pos ≤ location then location - st2.pos + 1 else st2.doc.length + 1
              preambleLoop fuel { st2 with pos := cursorAdvance st2.doc.length st2.pos adv }
            else .ok st2
          | none => .ok st2

/-- s_node_next_sibling: scan for the next node declaration and hand it to the
callback; a document with no further opening bracket is a success. -/
def s_node_next_sibling (st : XmlParserState α) (cb : α → aws_xml_node → α) :
    XmlStatus × XmlParserState α :=
  match memchrIdx st.doc st.pos '<' with
  | none => (.ok, st)
  | some next =>
    let st2 := { st with pos := cursorAdvance st.doc.length st.pos (next - st.pos) }
    match memchrIdx st2.doc st2.pos '>' with
    | none => (.err, aws_raise_error st2 .malformedInput)
    | some endl =>
      let node_name_len := endl - next
      let st3 := { st2 with pos := cursorAdvance st2.doc.length st2.pos (endl - st2.pos + 1) }
      let node := s_load_node_decl ((st.doc.drop (next + 1)).take (node_name_len - 1)) st3.pos
      (.ok, { st3 with user := cb st3.user node })

/-- aws_xml_parser_parse: skip preamble tags, then scan the first node.  The
return status of s_node_next_sibling is discarded (source line 126), so the
call reports success even when the first-node scan raised an error. -/
def aws_xml_parser_parse (st : XmlParserState α) (cb : α → aws_xml_node → α) :
    XmlStatus × XmlParserState α :=
  match preambleLoop (2 * st.doc.length + 2) st with
  | .error st2 => (.err, st2)
  | .ok st2 => (.ok, (s_node_next_sibling st2 cb).2)

/-- s_advance_to_closing_tag: build the closing tag from the node's name and
search for it from the node's body start; on success the parser cursor is
advanced, from its CURRENT position, by the closing tag's end offset relative
to that body start.  The out_body result is the (start, length) span of the
body. -/
def s_advance_to_closing_tag (st : XmlParserState α) (node : aws_xml_node) :
    XmlStatus × XmlParserState α × Option (Nat × Nat) :=
  let closing_name_len := node.name.length + 4
  if closing_name_len > st.doc.length - node.doc_at_body then
    (.err, aws_raise_error st .malformedInput, none)
  else if 260 < closing_name_len then
    (.err, aws_raise_error st .malformedInput, none)
  else
    match findSubstringIdx (st.doc.drop node.doc_at_body) ('<' :: '/' :: (node.name ++ ['>'])) with
    | none => (.err, aws_raise_error st .malformedInput, none)
    | some i =>
      (.ok, { st with pos := cursorAdvance st.doc.length st.pos (i + closing_name_len - 1) },
        some (node.doc_at_body, i))

/-- aws_xml_node_as_body forwards to s_advance_to_closing_tag with the body
span requested. -/
def aws_xml_node_as_body (st : XmlParserState α) (node : aws_xml_node) :
    XmlStatus × XmlParserState α × Option (Nat × Nat) :=
  s_advance_to_closing_tag st node

/-- The sibling loop of aws_xml_node_traverse.  Note source line 225: after
the child callback returns, s_advance_to_closing_tag is called with the
PARENT node, so the cursor advance is computed from the parent's name and the
parent's body start and applied at the current position. -/
def traverseLoop : Nat → XmlParserState α → aws_xml_node → (α → aws_xml_node → α) →
    XmlStatus × XmlParserState α
  | 0, st, _, _ => (.ok, st)
  | fuel + 1, st, node, cb =>
    match memchrIdx st.doc st.pos '<' with
    | none => (.err, aws_raise_error st .malformedInput)
    | some next =>
      match memchrIdx st.doc st.pos '>' with
      | none => (.err, aws_raise_error st .malformedInput)
      | some endl =>
        let node_name_len := endl - next
        let st2 := { st with pos := cursorAdvance st.doc.length st.pos (endl - st.pos + 1) }
        if st.doc.get? (next + 1) = some '/' then (.ok, st2)
        else
          let next_node := s_load_node_decl ((st.doc.drop (next + 1)).take (node_name_len - 1)) st2.pos
          let st3 := { st2 with user := cb st2.user next_node }
          let st4 := (s_advance_to_closing_tag st3 node).2.1
          traverseLoop fuel st4 node cb

/-- aws_xml_node_traverse: push the callback, run the sibling loop until a
closing tag breaks it, pop.  Every iteration strictly advances the cursor, so
the fuel dominates the iteration count. -/
def aws_xml_node_traverse (st : XmlParserState α) (node : aws_xml_node)
    (cb : α → aws_xml_node → α) : XmlStatus × XmlParserState α :=
  traverseLoop (st.doc.length + 2) st node cb

/-- The traversal step the specification describes: identical to traverseLoop
except that after the child callback the cursor is advanced past the CHILD's
closing tag (the child node is passed to s_advance_to_closing_tag). -/
def traverseLoopPerSpec : Nat → XmlParserState α → aws_xml_node → (α → aws_xml_node → α) →
    XmlStatus × XmlParserState α
  | 0, st, _, _ => (.ok, st)
  | fuel + 1, st, node, cb =>
    match memchrIdx st.doc st.pos '<' with
    | none => (.err, aws_raise_error st .malformedInput)
    | some next =>
      match memchrIdx st.doc st.pos '>' with
      | none => (.err, aws_raise_error st .malformedInput)
      | some endl =>
        let node_name_len := endl - next
        let st2 := { st with pos := cursorAdvance st.doc.length st.pos (endl - st.pos + 1) }
        if st.doc.get? (next + 1) = some '/' then (.ok, st2)
        else
          let next_node := s_load_node_decl ((st.doc.drop (next + 1)).take (node_name_len - 1)) st2.pos
          let st3 := { st2 with user := cb st2.user next_node }
          let st4 := (s_advance_to_closing_tag st3 next_node).2.1
          traverseLoopPerSpec fuel st4 node cb

/-- Entry point of the specification-described traversal, for comparison. -/
def xml_node_traverse_per_spec (st : XmlParserState α) (node : aws_xml_node)
    (cb : α → aws_xml_node → α) : XmlStatus × XmlParserState α :=
  traverseLoopPerSpec (st.doc.length + 2) st node cb

/-- The nested document "<a><b>x</b><c>y</c></a>" used to exhibit the
traversal's child-skip behaviour. -/
def sampleNestedDoc : Str :=
  ['<', 'a', '>', '<', 'b', '>', 'x', '<', '/', 'b', '>', '<', 'c', '>', 'y', '<', '/', 'c', '>', '<', '/', 'a', '>']

theorem tableFind_replace_self (k : Str) (v : α) (t : List (Str × α))
    (hsome : (tableFind t k).isSome = true) :
    tableFind (t.map (fun e => if e.1 = k then (k, v) else e)) k = some v := by
  induction t with
  | nil => simp [tableFind] at hsome
  | cons e rest ih =>
    cases e with
    | mk k2 v2 =>
      by_cases h : k2 = k
      · subst h
        simp only [List.map_cons, ite_true]
        simp only [tableFind]
        simp only [ite_true]
      · simp only [List.map_cons]
        rw [if_neg h]
        simp only [tableFind]
        rw [if_neg h]
        apply ih
        simp only [tableFind] at hsome
        rw [if_neg h] at hsome
        exact hsome

theorem tableFind_replace_ne (k : Str) (v : α) (q : Str) (h : q ≠ k) (t : List (Str × α)) :
    tableFind (t.map (fun e => if e.1 = k then (k, v) else e)) q = tableFind t q := by
  induction t with
  | nil => simp [tableFind]
  | cons e rest ih =>
    cases e with
    | mk k2 v2 =>
      by_cases h2 : k2 = k
      · subst h2
        simp only [List.map_cons, ite_true]
        simp only [tableFind]
        rw [if_neg (Ne.symm h), if_neg (Ne.symm h)]
        exact ih
      · simp only [List.map_cons]
        rw [if_neg h2]
        simp only [tableFind]
        by_cases h3 : k2 = q
        · rw [if_pos h3, if_pos h3]
        · rw [if_neg h3, if_neg h3]
          exact ih

theorem tableFind_append_single (k : Str) (v : α) (t : List (Str × α))
    (hnone : tableFind t k = none) :
    tableFind (t ++ [(k, v)]) k = some v := by
  induction t with
  | nil => simp [tableFind]
  | cons e rest ih =>
    cases e with
    | mk k2 v2 =>
      simp only [tableFind] at hnone
      by_cases h : k2 = k
      · rw [if_pos h] at hnone
        exact absurd hnone (by simp)
      · rw [if_neg h] at hnone
        simp only [List.cons_append, tableFind]
        rw [if_neg h]
        exact ih hnone

theorem tableFind_append_single_ne (k : Str) (v : α) (q : Str) (h : q ≠ k)
    (t : List (Str × α)) :
    tableFind (t ++ [(k, v)]) q = tableFind t q := by
  induction t with
  | nil => simp [tableFind, Ne.symm h]
  | cons e rest ih =>
    cases e with
    | mk k2 v2 =>
      simp only [List.cons_append, tableFind]
      by_cases h3 : k2 = q
      · rw [if_pos h3, if_pos h3]
      · rw [if_neg h3, if_neg h3]
        exact ih

theorem tableFind_put_self (t : List (Str × α)) (k : Str) (v : α) :
    tableFind (tablePut t k v) k = some v := by
  unfold tablePut
  split
  · exact tableFind_replace_self k v t (by assumption)
  · apply tableFind_append_single
    rename_i hnot
    cases hfind : tableFind t k with
    | none => rfl
    | some w => rw [hfind] at hnot; simp at hnot

theorem tableFind_put_ne (t : List (Str × α)) (k : Str) (v : α) (q : Str) (h : q ≠ k) :
    tableFind (tablePut t k v) q = tableFind t q := by
  unfold tablePut
  split
  · exact tableFind_replace_ne k v q h t
  · exact tableFind_append_single_ne k v q h t

theorem tableFind_mem (t : List (Str × α)) (k : Str) (v : α)
    (h : tableFind t k = some v) : (k, v) ∈ t := by
  induction t with
  | nil => simp [tableFind] at h
  | cons e rest ih =>
    cases e with
    | mk k2 v2 =>
      simp only [tableFind] at h
      by_cases h2 : k2 = k
      · rw [if_pos h2] at h
        injection h with hv
        subst h2
        subst hv
        exact List.mem_cons_self _ _
      · rw [if_neg h2] at h
        exact List.mem_cons_of_mem _ (ih h)

/-! ### Lookup lemmas for the merge engine -/

theorem property_merge_subs_value (d : ProfileProperty) (l : List (Str × Str)) :
    (s_profile_property_merge_subs d l).value = d.value := by
  induction l generalizing d with
  | nil => rfl
  | cons e rest ih => cases e; simp [s_profile_property_merge_subs, ih]

theorem property_merge_value (d s : ProfileProperty) :
    (s_profile_property_merge d s).value = s.value := by
  unfold s_profile_property_merge
  rw [property_merge_subs_value]

theorem profile_merge_props_find_not_mem (d : Profile) (l : List (Str × ProfileProperty))
    (k : Str) (h : k ∉ l.map Prod.fst) :
    aws_profile_get_property (s_profile_merge_props d l) k = aws_profile_get_property d k := by
  induction l generalizing d with
  | nil => rfl
  | cons e rest ih =>
    cases e with
    | mk k0 sp =>
      simp only [List.map_cons, List.mem_cons] at h
      push_neg at h
      simp only [s_profile_merge_props]
      rw [ih _ h.2]
      simp [aws_profile_get_property, tableFind_put_ne _ _ _ _ h.1]

theorem profile_merge_props_find (d : Profile) (l : List (Str × ProfileProperty))
    (k : Str) (sp : ProfileProperty) (hnd : (l.map Prod.fst).Nodup)
    (hfind : tableFind l k = some sp) :
    aws_profile_get_property (s_profile_merge_props d l) k =
      some (s_profile_property_merge
        (match aws_profile_get_property d k with
          | some p => p
          | none => aws_profile_property_new k []) sp) := by
  induction l generalizing d with
  | nil => simp [tableFind] at hfind
  | cons e rest ih =>
    cases e with
    | mk k0 sp0 =>
      simp only [List.map_cons, List.nodup_cons] at hnd
      by_cases h : k0 = k
      · subst h
        simp only [tableFind, if_true] at hfind
        cases hfind
        simp only [s_profile_merge_props]
        rw [profile_merge_props_find_not_mem _ _ _ hnd.1]
        simp [aws_profile_get_property, tableFind_put_self]
      · simp only [tableFind, h, if_false] at hfind
        simp only [s_profile_merge_props]
        rw [ih _ hnd.2 hfind]
        simp [aws_profile_get_property, tableFind_put_ne _ _ _ _ (Ne.symm h)]

theorem collection_merge_profiles_find_not_mem (d : ProfileCollection)
    (l : List (Str × Profile)) (k : Str) (h : k ∉ l.map Prod.fst) :
    aws_profile_collection_get_profile (s_profile_collection_merge_profiles d l) k =
      aws_profile_collection_get_profile d k := by
  induction l generalizing d with
  | nil => rfl
  | cons e rest ih =>
    cases e with
    | mk k0 sp =>
      simp only [List.map_cons, List.mem_cons] at h
      push_neg at h
      simp only [s_profile_collection_merge_profiles]
      rw [ih _ h.2]
      simp [aws_profile_collection_get_profile, tableFind_put_ne _ _ _ _ h.1]

theorem collection_merge_profiles_find (d : ProfileCollection) (l : List (Str × Profile))
    (k : Str) (sp : Profile) (hnd : (l.map Prod.fst).Nodup)
    (hfind : tableFind l k = some sp) :
    aws_profile_collection_get_profile (s_profile_collection_merge_profiles d l) k =
      some (s_profile_merge
        (match aws_profile_collection_get_profile d k with
          | some p => p
          | none => aws_profile_new k sp.has_profile_keyword) sp) := by
  induction l generalizing d with
  | nil => simp [tableFind] at hfind
  | cons e rest ih =>
    cases e with
    | mk k0 sp0 =>
      simp only [List.map_cons, List.nodup_cons] at hnd
      by_cases h : k0 = k
      · subst h
        simp only [tableFind, if_true] at hfind
        cases hfind
        simp only [s_profile_collection_merge_profiles]
        rw [collection_merge_profiles_find_not_mem _ _ _ hnd.1]
        simp [aws_profile_collection_get_profile, tableFind_put_self]
      · simp only [tableFind, h, if_false] at hfind
        simp only [s_profile_collection_merge_profiles]
        rw [ih _ hnd.2 hfind]
        simp [aws_profile_collection_get_profile, tableFind_put_ne _ _ _ _ (Ne.symm h)]

/-- C1: For every pair of profile collections A (config) and B (credentials) handed
to the top-level merge, and every profile name present in both and property name
defined in both collections' profile of that name, the merged collection's profile
holds that property with B's (credentials) value, not A's (config) value: the
config collection is merged into the fresh result first, then credentials on top. -/
theorem merged_property_takes_credentials_value
    (A B : ProfileCollection) (p k : Str) (profA profB : Profile)
    (propA propB : ProfileProperty)
    (hBnd : (B.profiles.map Prod.fst).Nodup)
    (hBpnd : (profB.properties.map Prod.fst).Nodup)
    (hfA : aws_profile_collection_get_profile A p = some profA)
    (hfB : aws_profile_collection_get_profile B p = some profB)
    (hpA : aws_profile_get_property profA k = some propA)
    (hpB : aws_profile_get_property profB k = some propB) :
    ∃ prof prop,
      aws_profile_collection_get_profile
        (aws_profile_collection_new_from_merge (some A) (some B)) p = some prof ∧
      aws_profile_get_property prof k = some prop ∧
      prop.value = propB.value ∧
      (propB.value ≠ propA.value → prop.value ≠ propA.value) := by
  obtain ⟨base, hmain⟩ :
      ∃ base, aws_profile_collection_get_profile
        (aws_profile_collection_new_from_merge (some A) (some B)) p =
        some (s_profile_merge base profB) :=
    ⟨_, by
      unfold aws_profile_collection_new_from_merge
      exact collection_merge_profiles_find _ _ _ _ hBnd hfB⟩
  obtain ⟨pbase, hprop⟩ :
      ∃ pbase, aws_profile_get_property (s_profile_merge base profB) k =
        some (s_profile_property_merge pbase propB) :=
    ⟨_, by
      unfold s_profile_merge
      exact profile_merge_props_find _ _ _ _ hBpnd hpB⟩
  exact ⟨_, _, hmain, hprop, property_merge_value _ _,
    fun hne => by rw [property_merge_value]; exact hne⟩

/-! ### Generic list kit for the parser proofs -/

theorem takeWhile_append_all (p : Char → Bool) (l r : Str) (h : ∀ c ∈ l, p c = true) :
    (l ++ r).takeWhile p = l ++ r.takeWhile p := by
  induction l with
  | nil => simp
  | cons c t ih =>
    have hc := h c (List.mem_cons_self _ _)
    simp only [List.cons_append, List.takeWhile_cons, hc, if_true]
    rw [ih (fun d hd => h d (List.mem_cons_of_mem _ hd))]

theorem dropWhile_append_all (p : Char → Bool) (l r : Str) (h : ∀ c ∈ l, p c = true) :
    (l ++ r).dropWhile p = r.dropWhile p := by
  induction l with
  | nil => simp
  | cons c t ih =>
    have hc := h c (List.mem_cons_self _ _)
    simp only [List.cons_append, List.dropWhile_cons, hc, if_true]
    exact ih (fun d hd => h d (List.mem_cons_of_mem _ hd))

theorem takeWhile_cons_false (p : Char → Bool) (c : Char) (t : Str) (h : p c = false) :
    (c :: t).takeWhile p = [] := by
  simp [List.takeWhile_cons, h]

theorem dropWhile_cons_false (p : Char → Bool) (c : Char) (t : Str) (h : p c = false) :
    (c :: t).dropWhile p = c :: t := by
  simp [List.dropWhile_cons, h]

theorem takeWhile_eq_self_of_all (p : Char → Bool) (l : Str) (h : ∀ c ∈ l, p c = true) :
    l.takeWhile p = l := by
  have := takeWhile_append_all p l [] h
  simpa using this

theorem dropWhile_eq_nil_of_all (p : Char → Bool) (l : Str) (h : ∀ c ∈ l, p c = true) :
    l.dropWhile p = [] := by
  have := dropWhile_append_all p l [] h
  simpa using this

theorem dropWhile_eq_self_of_all_false (p : Char → Bool) (l : Str)
    (h : ∀ c ∈ l, p c = false) : l.dropWhile p = l := by
  cases l with
  | nil => rfl
  | cons c t => exact dropWhile_cons_false p c t (h c (List.mem_cons_self _ _))

theorem takeWhile_eq_nil_of_all_false (p : Char → Bool) (l : Str)
    (h : ∀ c ∈ l, p c = false) : l.takeWhile p = [] := by
  cases l with
  | nil => rfl
  | cons c t => exact takeWhile_cons_false p c t (h c (List.mem_cons_self _ _))

theorem dropWhile_eq_nil_imp_all (p : Char → Bool) (l : Str) (h : l.dropWhile p = []) :
    ∀ c ∈ l, p c = true := by
  induction l with
  | nil => intro c hc; cases hc
  | cons c t ih =>
    intro d hd
    by_cases hc : p c = true
    · simp only [List.dropWhile_cons, hc, if_true] at h
      rcases List.mem_cons.mp hd with h1 | h2
      · subst h1; exact hc
      · exact ih h d h2
    · simp only [List.dropWhile_cons, Bool.not_eq_true] at hc
      simp [List.dropWhile_cons, hc] at h

theorem dropWhile_append_ne_nil (p : Char → Bool) (a b : Str) (h : a.dropWhile p ≠ []) :
    (a ++ b).dropWhile p = a.dropWhile p ++ b := by
  induction a with
  | nil => simp at h
  | cons c t ih =>
    by_cases hc : p c = true
    · simp only [List.cons_append, List.dropWhile_cons, hc, if_true]
      simp only [List.dropWhile_cons, hc, if_true] at h
      exact ih h
    · simp only [Bool.not_eq_true] at hc
      simp only [List.cons_append, List.dropWhile_cons, hc]
      simp

theorem rightTrimPred_nil (p : Char → Bool) : rightTrimPred [] p = [] := rfl

theorem rightTrimPred_eq_self_of_all (p : Char → Bool) (l : Str)
    (h : ∀ c ∈ l, p c = false) : rightTrimPred l p = l := by
  unfold rightTrimPred
  rw [dropWhile_eq_self_of_all_false p l.reverse (fun c hc => h c (List.mem_reverse.mp hc))]
  exact List.reverse_reverse l

theorem rightTrimPred_eq_nil_of_all (p : Char → Bool) (l : Str)
    (h : ∀ c ∈ l, p c = true) : rightTrimPred l p = [] := by
  unfold rightTrimPred
  rw [dropWhile_eq_nil_of_all p l.reverse (fun c hc => h c (List.mem_reverse.mp hc))]
  rfl

theorem rightTrimPred_eq_self_of_last (p : Char → Bool) (l : Str) (c : Char)
    (hl : l.getLast? = some c) (hc : p c = false) : rightTrimPred l p = l := by
  unfold rightTrimPred
  have hrev : l.reverse.head? = some c := by
    rw [List.head?_reverse]
    exact hl
  cases hr : l.reverse with
  | nil => rw [hr] at hrev; cases hrev
  | cons d t =>
    rw [hr] at hrev
    simp only [List.head?_cons, Option.some.injEq] at hrev
    have hd2 : p d = false := by rw [hrev]; exact hc
    rw [dropWhile_cons_false p d t hd2]
    rw [← hr]
    exact List.reverse_reverse l

theorem rightTrimPred_append (p : Char → Bool) (l r : Str) (h : rightTrimPred r p ≠ []) :
    rightTrimPred (l ++ r) p = l ++ rightTrimPred r p := by
  unfold rightTrimPred at h ⊢
  rw [List.reverse_append]
  have hne : r.reverse.dropWhile p ≠ [] := by
    intro hnil
    rw [hnil] at h
    exact h rfl
  rw [dropWhile_append_ne_nil p _ _ hne, List.reverse_append, List.reverse_reverse]

theorem rightTrimPred_append_all_false (p : Char → Bool) (l r : Str) (hr : r ≠ [])
    (h : ∀ c ∈ r, p c = false) : rightTrimPred (l ++ r) p = l ++ r := by
  have hself : rightTrimPred r p = r := rightTrimPred_eq_self_of_all p r h
  rw [rightTrimPred_append p l r (by rw [hself]; exact hr), hself]

theorem rightTrimPred_concat_true (p : Char → Bool) (l : Str) (c : Char) (hc : p c = true) :
    rightTrimPred (l ++ [c]) p = rightTrimPred l p := by
  unfold rightTrimPred
  rw [List.reverse_append]
  simp [List.dropWhile_cons, hc]

theorem rightTrimPred_isPrefix (p : Char → Bool) (l : Str) :
    (rightTrimPred l p) <+: l := by
  unfold rightTrimPred
  have hsuf : l.reverse.dropWhile p <:+ l.reverse := List.dropWhile_suffix p
  have h2 : (l.reverse.dropWhile p).reverse <+: l.reverse.reverse :=
    List.reverse_prefix.mpr hsuf
  simpa using h2

theorem rightTrimPred_cons_ne_nil (p : Char → Bool) (c : Char) (t : Str) (h : p c = false) :
    rightTrimPred (c :: t) p ≠ [] := by
  intro hnil
  unfold rightTrimPred at hnil
  have h2 : (c :: t).reverse.dropWhile p = [] := by
    have := congrArg List.reverse hnil
    simpa using this
  have hall := dropWhile_eq_nil_imp_all p _ h2
  have hc : p c = true := hall c (by simp)
  rw [h] at hc
  cases hc

theorem rightTrimPred_cons_head (p : Char → Bool) (c : Char) (t : Str) (h : p c = false) :
    ∃ t2, rightTrimPred (c :: t) p = c :: t2 := by
  have hpfx := rightTrimPred_isPrefix p (c :: t)
  have hne := rightTrimPred_cons_ne_nil p c t h
  cases hr : rightTrimPred (c :: t) p with
  | nil => exact absurd hr hne
  | cons d t2 =>
    rw [hr] at hpfx
    obtain ⟨u, hu⟩ := hpfx
    injection hu with h1 h2
    subst h1
    exact ⟨t2, rfl⟩

/-! ### Character-class facts -/

theorem ws_cases (c : Char) (h : s_is_whitespace c = true) :
    c = '\t' ∨ c = '\n' ∨ c = '\r' ∨ c = ' ' := by
  simp only [s_is_whitespace, Bool.or_eq_true, beq_iff_eq] at h
  tauto

theorem comment_cases (c : Char) (h : s_is_comment_token c = true) :
    c = '#' ∨ c = ';' := by
  simp only [s_is_comment_token, Bool.or_eq_true, beq_iff_eq] at h
  tauto

theorem id_not_ws (c : Char) (h : s_is_identifier c = true) : s_is_whitespace c = false := by
  cases hw : s_is_whitespace c with
  | false => rfl
  | true =>
    rcases ws_cases c hw with h1 | h1 | h1 | h1 <;> subst h1 <;> exact absurd h (by decide)

theorem id_not_comment (c : Char) (h : s_is_identifier c = true) :
    s_is_comment_token c = false := by
  cases hw : s_is_comment_token c with
  | false => rfl
  | true =>
    rcases comment_cases c hw with h1 | h1 <;> subst h1 <;> exact absurd h (by decide)

theorem ws_not_comment (c : Char) (h : s_is_whitespace c = true) :
    s_is_comment_token c = false := by
  rcases ws_cases c h with h1 | h1 | h1 | h1 <;> subst h1 <;> decide

theorem id_not_assignment (c : Char) (h : s_is_identifier c = true) :
    s_is_not_assignment_operator c = true := by
  cases he : (c == '=') with
  | false => simp [s_is_not_assignment_operator, he]
  | true =>
    have : c = '=' := by simpa using he
    subst this
    exact absurd h (by decide)

theorem id_not_cr (c : Char) (h : s_is_identifier c = true) :
    s_is_carriage_return c = false := by
  have hw := id_not_ws c h
  cases hr : (c == '\r') with
  | false => simp [s_is_carriage_return, hr]
  | true =>
    have : c = '\r' := by simpa using hr
    subst this
    exact absurd hw (by decide)

theorem id_not_profile_start (c : Char) (h : s_is_identifier c = true) :
    s_is_profile_start c = false := by
  cases hb : (c == '[') with
  | false => simp [s_is_profile_start, hb]
  | true =>
    have : c = '[' := by simpa using hb
    subst this
    exact absurd h (by decide)

theorem id_is_not_profile_end (c : Char) (h : s_is_identifier c = true) :
    s_is_not_profile_end c = true := by
  cases hb : (c == ']') with
  | false => simp [s_is_not_profile_end, hb]
  | true =>
    have : c = ']' := by simpa using hb
    subst this
    exact absurd h (by decide)

theorem ws_not_cr_of_false (c : Char) (h : s_is_whitespace c = false) :
    s_is_carriage_return c = false := by
  cases hr : (c == '\r') with
  | false => simp [s_is_carriage_return, hr]
  | true =>
    have : c = '\r' := by simpa using hr
    subst this
    exact absurd h (by decide)

theorem ws_not_assignment_of_ws (c : Char) (h : s_is_whitespace c = true) :
    s_is_not_assignment_operator c = true := by
  rcases ws_cases c h with h1 | h1 | h1 | h1 <;> subst h1 <;> decide

/-! ### Trailing-comment trimming facts -/

theorem twc_eq_self_of_no_comment (l : Str) (h : ∀ c ∈ l, s_is_comment_token c = false) :
    s_trim_trailing_whitespace_comment l = l := by
  induction l with
  | nil => rfl
  | cons c t ih =>
    unfold s_trim_trailing_whitespace_comment
    rw [if_neg]
    · rw [ih (fun d hd => h d (List.mem_cons_of_mem _ hd))]
    · intro hbreak
      rcases hbreak with ⟨_, hcmt, hne⟩
      cases t with
      | nil => exact hne rfl
      | cons d t2 =>
        have := h d (by simp)
        simp only [List.headD_cons] at hcmt
        rw [this] at hcmt
        cases hcmt

theorem twc_eq_self_of_no_pair (l : Str) (h : NoWsCommentPair l) :
    s_trim_trailing_whitespace_comment l = l := by
  induction l with
  | nil => rfl
  | cons c t ih =>
    unfold s_trim_trailing_whitespace_comment
    cases t with
    | nil => simp [s_trim_trailing_whitespace_comment]
    | cons d t2 =>
      obtain ⟨h1, h2⟩ := h
      rw [if_neg, ih h2]
      intro hbreak
      exact h1 ⟨hbreak.1, by simpa using hbreak.2.1⟩

theorem no_pair_of_no_ws (l : Str) (h : ∀ c ∈ l, s_is_whitespace c = false) :
    NoWsCommentPair l := by
  induction l with
  | nil => trivial
  | cons c t ih =>
    cases t with
    | nil => trivial
    | cons d t2 =>
      refine ⟨?_, ih (fun e he => h e (List.mem_cons_of_mem _ he))⟩
      intro hcontra
      have := h c (List.mem_cons_self _ _)
      rw [this] at hcontra
      cases hcontra.1

theorem no_pair_append (a b : Str) (ha : NoWsCommentPair a) (hb : NoWsCommentPair b)
    (hjoin : ∀ x ∈ a.getLast?, ∀ y ∈ b.head?,
      ¬(s_is_whitespace x = true ∧ s_is_comment_token y = true)) :
    NoWsCommentPair (a ++ b) := by
  induction a with
  | nil => simpa using hb
  | cons c t ih =>
    cases t with
    | nil =>
      cases b with
      | nil => simpa using ha
      | cons d t2 =>
        refine ⟨?_, by simpa using hb⟩
        exact hjoin c (by simp) d (by simp)
    | cons e t3 =>
      obtain ⟨h1, h2⟩ := ha
      refine ⟨h1, ?_⟩
      exact ih h2 (by
        intro x hx y hy
        apply hjoin x ?_ y hy
        simpa using hx)

/-- Break lemma: a whitespace character followed by a comment token cuts the rest;
the boundary pair never breaks earlier since a whitespace char is not a comment token. -/
theorem twc_break (x : Str) (w t : Char) (c : Str) (hx : NoWsCommentPair x)
    (hw : s_is_whitespace w = true) (ht : s_is_comment_token t = true) :
    s_trim_trailing_whitespace_comment (x ++ w :: t :: c) = x := by
  induction x with
  | nil =>
    simp only [List.nil_append]
    unfold s_trim_trailing_whitespace_comment
    rw [if_pos ⟨hw, by simpa using ht, by simp⟩]
  | cons a x2 ih =>
    simp only [List.cons_append]
    unfold s_trim_trailing_whitespace_comment
    have hneg : ¬(s_is_whitespace a = true ∧
        s_is_comment_token ((x2 ++ w :: t :: c).headD 'x') = true ∧
        x2 ++ w :: t :: c ≠ []) := by
      intro hbreak
      rcases hbreak with ⟨hws, hcmt, _⟩
      cases x2 with
      | nil =>
        simp only [List.nil_append, List.headD_cons] at hcmt
        rw [ws_not_comment w hw] at hcmt
        cases hcmt
      | cons e x3 =>
        obtain ⟨h1, _⟩ := hx
        exact h1 ⟨hws, by simpa using hcmt⟩
    rw [if_neg hneg]
    simp only [List.cons.injEq, true_and]
    cases x2 with
    | nil => exact ih trivial
    | cons e x3 => exact ih hx.2

/-- C1 witness: the theorem applied at a concrete pair of collections where the
config and credentials files disagree on the same property of the same profile. -/
theorem merged_property_takes_credentials_value_witness :
    ∃ prof prop,
      aws_profile_collection_get_profile
        (aws_profile_collection_new_from_merge (some sampleCollA) (some sampleCollB))
        ['p'] = some prof ∧
      aws_profile_get_property prof ['k'] = some prop ∧
      prop.value = (aws_profile_property_new ['k'] ['b']).value ∧
      ((aws_profile_property_new ['k'] ['b']).value ≠ (aws_profile_property_new ['k'] ['a']).value →
        prop.value ≠ (aws_profile_property_new ['k'] ['a']).value) :=
  merged_property_takes_credentials_value sampleCollA sampleCollB ['p'] ['k']
    sampleProfA sampleProfB (aws_profile_property_new ['k'] ['a'])
    (aws_profile_property_new ['k'] ['b'])
    (by decide) (by decide) (by decide) (by decide) (by decide) (by decide)

/-! ### Classification lemmas for identifier-headed lines -/

theorem parse_property_handled (line : Str) (ctx : ParseContext) :
    (s_parse_property line ctx).1 = true := by
  simp only [s_parse_property]
  split
  · rfl
  · split
    · rfl
    · split
      · rfl
      · split
        · rfl
        · split <;> rfl

theorem decl_not_taken_of_head (line : Str) (c0 : Char) (t : Str) (hline : line = c0 :: t)
    (hnc : s_is_not_comment_token c0 = true) (hnb : s_is_profile_start c0 = false)
    (ctx : ParseContext) :
    s_parse_profile_declaration line ctx = (false, ctx) := by
  subst hline
  have h0 : ((rightTrimPred (s_trim_trailing_comment (c0 :: t)) s_is_whitespace).takeWhile
      s_is_profile_start).length = 0 := by
    have h1 : s_trim_trailing_comment (c0 :: t) =
        c0 :: (t.takeWhile s_is_not_comment_token) := by
      simp [s_trim_trailing_comment, s_parse_by_character_predicate, List.takeWhile_cons, hnc]
    rw [h1]
    cases hrt : rightTrimPred (c0 :: t.takeWhile s_is_not_comment_token) s_is_whitespace with
    | nil => simp
    | cons d t2 =>
      have hpfx := rightTrimPred_isPrefix s_is_whitespace
        (c0 :: t.takeWhile s_is_not_comment_token)
      rw [hrt] at hpfx
      obtain ⟨u, hu⟩ := hpfx
      injection hu with h2 h3
      subst h2
      rw [takeWhile_cons_false _ _ _ hnb]
      rfl
  unfold s_parse_profile_declaration
  simp only [s_parse_by_character_predicate]
  rw [if_pos h0]

theorem continuation_not_taken_of_head (line : Str) (c0 : Char) (t : Str)
    (hline : line = c0 :: t) (hws : s_is_whitespace c0 = false) (ctx : ParseContext) :
    s_parse_property_continuation line ctx = (false, ctx) := by
  subst hline
  have h0 : (((rightTrimPred (c0 :: t) s_is_whitespace)).takeWhile s_is_whitespace).length
      = 0 := by
    cases hrt : rightTrimPred (c0 :: t) s_is_whitespace with
    | nil => simp
    | cons d t2 =>
      have hpfx := rightTrimPred_isPrefix s_is_whitespace (c0 :: t)
      rw [hrt] at hpfx
      obtain ⟨u, hu⟩ := hpfx
      injection hu with h2 h3
      subst h2
      rw [takeWhile_cons_false _ _ _ hws]
      rfl
  unfold s_parse_property_continuation
  simp only [s_parse_by_character_predicate]
  rw [if_pos h0]

/-- An identifier-headed carriage-return-free line always lands in the property
classifier: it is not skipped, not a declaration and not a continuation. -/
theorem stepLine_eq_parse_property (ctx : ParseContext) (line : Str) (c0 : Char) (t : Str)
    (hline : line = c0 :: t) (hid : s_is_identifier c0 = true)
    (hCR : rightTrimPred line s_is_carriage_return = line) :
    s_parse_and_apply_line_to_profile_collection ctx line = (s_parse_property line ctx).2 := by
  have hnc : s_is_not_comment_token c0 = true := by
    simp [s_is_not_comment_token, id_not_comment c0 hid]
  have hnb := id_not_profile_start c0 hid
  have hnw := id_not_ws c0 hid
  unfold s_parse_and_apply_line_to_profile_collection
  rw [hCR]
  rw [if_neg ?hskip]
  case hskip =>
    subst hline
    intro habs
    rcases habs with h1 | h1 | h1
    · simp at h1
    · simp only [s_is_comment_line] at h1
      rw [id_not_comment c0 hid] at h1
      cases h1
    · simp only [s_is_whitespace_line, leftTrimPred] at h1
      rw [dropWhile_cons_false _ _ _ hnw] at h1
      simp at h1
  rw [decl_not_taken_of_head line c0 t hline hnc hnb ctx]
  simp only
  rw [continuation_not_taken_of_head line c0 t hline hnw ctx]
  simp only
  rw [parse_property_handled line ctx]
  simp

/-- Core computation of s_parse_property on a line whose trimmed form splits as
key-part, assignment operator and value-part: the stored key is the whitespace
right-trim of the key-part and the stored value drops leading assignment
operators and whitespace from the value-part. -/
theorem s_parse_property_core (ctx : ParseContext) (line kraw K val : Str)
    (hpc : rightTrimPred (s_trim_trailing_whitespace_comment line) s_is_whitespace
      = kraw ++ '=' :: val)
    (hkraw : kraw ≠ [])
    (hknc : ∀ c ∈ kraw, s_is_not_assignment_operator c = true)
    (htrim : rightTrimPred kraw s_is_whitespace = K)
    (hKid : ∀ c ∈ K, s_is_identifier c = true) :
    s_parse_property line ctx =
      (true, match ctx.current_profile with
        | some profName =>
          { ctx with
            profile_collection := collUpdateProfile ctx.profile_collection profName
              (fun prof => s_profile_add_property prof K
                ((val.dropWhile s_is_assignment_operator).dropWhile s_is_whitespace)),
            current_property := some K }
        | none =>
          if ctx.has_seen_profile
          then { ctx with current_property := none, parse_error := .recoverable }
          else { ctx with current_property := none, parse_error := .fatal }) := by
  have htake : (kraw ++ '=' :: val).takeWhile s_is_not_assignment_operator = kraw := by
    rw [takeWhile_append_all _ _ _ hknc, takeWhile_cons_false _ _ _ (by decide)]
    simp
  have hdrop : (kraw ++ '=' :: val).dropWhile s_is_not_assignment_operator = '=' :: val := by
    rw [dropWhile_append_all _ _ _ hknc, dropWhile_cons_false _ _ _ (by decide)]
  have hid_check : trimPred K s_is_identifier = [] := by
    unfold trimPred leftTrimPred
    rw [rightTrimPred_eq_nil_of_all _ _ hKid]
    rfl
  have hop : s_is_assignment_operator '=' = true := by decide
  have htake2 : ('=' :: val).takeWhile s_is_assignment_operator =
      '=' :: val.takeWhile s_is_assignment_operator := by
    simp [List.takeWhile_cons, hop]
  have hdrop2 : ('=' :: val).dropWhile s_is_assignment_operator =
      val.dropWhile s_is_assignment_operator := by
    simp [List.dropWhile_cons, hop]
  simp only [s_parse_property, s_parse_by_character_predicate, hpc, htake, hdrop]
  rw [if_neg (by simpa using hkraw)]
  rw [htrim, hid_check]
  simp only [List.length_nil, gt_iff_lt, lt_self_iff_false, if_false]
  rw [htake2, hdrop2]
  simp only [List.length_cons, Nat.succ_ne_zero, if_false]
  cases ctx.current_profile with
  | some p => rfl
  | none =>
    by_cases hs : ctx.has_seen_profile = true
    · rw [if_pos hs, if_pos hs]
    · rw [if_neg hs, if_neg hs]

/-- Stepping a key=value property-definition line: with a current profile the
property is stored on it (replacing any same-named one) and becomes current;
with no current profile the line is recoverable after a profile has been seen
and fatal before any profile has been seen. -/
theorem stepLine_propDefLine (ctx : ParseContext) (k v : Str)
    (hk : ValidKey k) (hv : ValidValue v) :
    s_parse_and_apply_line_to_profile_collection ctx (propDefLine k v) =
      (match ctx.current_profile with
        | some profName =>
          { ctx with
            profile_collection := collUpdateProfile ctx.profile_collection profName
              (fun prof => s_profile_add_property prof k v),
            current_property := some k }
        | none =>
          if ctx.has_seen_profile
          then { ctx with current_property := none, parse_error := .recoverable }
          else { ctx with current_property := none, parse_error := .fatal }) := by
  obtain ⟨hke, hkid⟩ := hk
  cases hkline : k with
  | nil => exact absurd hkline hke
  | cons c0 t0 =>
    subst hkline
    have hid0 : s_is_identifier c0 = true := hkid c0 (List.mem_cons_self _ _)
    have hCR : rightTrimPred (propDefLine (c0 :: t0) v) s_is_carriage_return
        = propDefLine (c0 :: t0) v := by
      apply rightTrimPred_eq_self_of_all
      intro c hc
      unfold propDefLine at hc
      rcases List.mem_append.mp hc with hc1 | hc1
      · exact id_not_cr c (hkid c hc1)
      · rcases List.mem_cons.mp hc1 with hc2 | hc2
        · subst hc2; decide
        · exact ws_not_cr_of_false c (hv c hc2).1
    have hstep := stepLine_eq_parse_property ctx (propDefLine (c0 :: t0) v) c0
      (t0 ++ '=' :: v) (by simp [propDefLine]) hid0 hCR
    rw [hstep]
    have htwc : s_trim_trailing_whitespace_comment (propDefLine (c0 :: t0) v)
        = propDefLine (c0 :: t0) v := by
      apply twc_eq_self_of_no_comment
      intro c hc
      unfold propDefLine at hc
      rcases List.mem_append.mp hc with hc1 | hc1
      · exact id_not_comment c (hkid c hc1)
      · rcases List.mem_cons.mp hc1 with hc2 | hc2
        · subst hc2; decide
        · exact (hv c hc2).2.1
    have hrt : rightTrimPred (propDefLine (c0 :: t0) v) s_is_whitespace
        = propDefLine (c0 :: t0) v := by
      unfold propDefLine
      apply rightTrimPred_append_all_false
      · simp
      · intro c hc
        rcases List.mem_cons.mp hc with hc2 | hc2
        · subst hc2; decide
        · exact (hv c hc2).1
    have hcore := s_parse_property_core ctx (propDefLine (c0 :: t0) v) (c0 :: t0)
      (c0 :: t0) v (by rw [htwc, hrt]; rfl) (by simp)
      (fun c hc => id_not_assignment c (hkid c hc))
      (rightTrimPred_eq_self_of_all _ _ (fun c hc => id_not_ws c (hkid c hc)))
      hkid
    rw [hcore]
    have hval : (v.dropWhile s_is_assignment_operator).dropWhile s_is_whitespace = v := by
      have h1 : v.dropWhile s_is_assignment_operator = v := by
        apply dropWhile_eq_self_of_all_false
        intro c hc
        have := (hv c hc).2.2
        simp only [s_is_not_assignment_operator, Bool.not_eq_true'] at this
        simpa [s_is_assignment_operator] using this
      rw [h1]
      exact dropWhile_eq_self_of_all_false _ _ (fun c hc => (hv c hc).1)
    rw [hval]

/-- Stepping the concrete config declaration line [profile default]. -/
theorem stepLine_profile_default (profs : List (Str × Profile)) (cp cpp : Option Str)
    (pe : ParseErrorState) (hs : Bool) :
    s_parse_and_apply_line_to_profile_collection
      ⟨⟨.config, profs⟩, cp, cpp, pe, hs⟩ ("[profile default]".toList) =
      ⟨(s_profile_collection_add_profile ⟨.config, profs⟩ ("default".toList) true).1,
        (s_profile_collection_add_profile ⟨.config, profs⟩ ("default".toList) true).2,
        none, pe, true⟩ := rfl

/-- Stepping the concrete unprefixed declaration line [default] in a config file. -/
theorem stepLine_default (profs : List (Str × Profile)) (cp cpp : Option Str)
    (pe : ParseErrorState) (hs : Bool) :
    s_parse_and_apply_line_to_profile_collection
      ⟨⟨.config, profs⟩, cp, cpp, pe, hs⟩ ("[default]".toList) =
      ⟨(s_profile_collection_add_profile ⟨.config, profs⟩ ("default".toList) false).1,
        (s_profile_collection_add_profile ⟨.config, profs⟩ ("default".toList) false).2,
        none, pe, true⟩ := rfl

/-- Adding a prefixed default profile to an empty config collection. -/
theorem add_default_kw_empty :
    s_profile_collection_add_profile ⟨.config, []⟩ ("default".toList) true =
      (⟨.config, [( "default".toList, aws_profile_new ("default".toList) true)]⟩,
        some ("default".toList)) := rfl

/-- Adding an unprefixed default profile to an empty config collection. -/
theorem add_default_nokw_empty :
    s_profile_collection_add_profile ⟨.config, []⟩ ("default".toList) false =
      (⟨.config, [( "default".toList, aws_profile_new ("default".toList) false)]⟩,
        some ("default".toList)) := rfl

/-- An unprefixed default declaration is ignored when a prefixed default profile
already exists: the collection is unchanged and no current profile is produced. -/
theorem add_default_nokw_superseded (prof : Profile) (h : prof.has_profile_keyword = true) :
    s_profile_collection_add_profile ⟨.config, [( "default".toList, prof)]⟩
      ("default".toList) false = (⟨.config, [( "default".toList, prof)]⟩, none) := by
  obtain ⟨nm, kw, props⟩ := prof
  simp only at h
  subst h
  rfl

/-- A prefixed default declaration stomps over an existing unprefixed default
profile: the old profile is removed and a fresh prefixed one is added. -/
theorem add_default_kw_stomps (prof : Profile) (h : prof.has_profile_keyword = false) :
    s_profile_collection_add_profile ⟨.config, [( "default".toList, prof)]⟩
      ("default".toList) true =
      (⟨.config, [( "default".toList, aws_profile_new ("default".toList) true)]⟩,
        some ("default".toList)) := by
  obtain ⟨nm, kw, props⟩ := prof
  simp only at h
  subst h
  rfl

theorem parseLinesGo_props (P : List (Str × Str)) (rest : List Str) (ctx : ParseContext)
    (pn : Str) (hvalid : ∀ e ∈ P, ValidKey e.1 ∧ ValidValue e.2)
    (hcur : ctx.current_profile = some pn) (hpe : ctx.parse_error ≠ .fatal) :
    parseLinesGo ctx (P.map (fun e => propDefLine e.1 e.2) ++ rest) =
      parseLinesGo { ctx with profile_collection := applyPropsColl ctx.profile_collection pn P, current_property := lastKeyOpt P ctx.current_property } rest := by
  induction P generalizing ctx with
  | nil => rfl
  | cons e P2 ih =>
    cases e with
    | mk ek ev =>
      simp only [List.map_cons, List.cons_append, parseLinesGo]
      rw [stepLine_propDefLine ctx ek ev (hvalid (ek, ev) (by simp)).1
        (hvalid (ek, ev) (by simp)).2]
      rw [hcur]
      simp only
      rw [if_neg (by simpa using hpe)]
      exact ih _ (fun q hq => hvalid q (List.mem_cons_of_mem _ hq)) rfl hpe

theorem parseLinesGo_props_skip (P : List (Str × Str)) (ctx : ParseContext)
    (hcur : ctx.current_profile = none) (hseen : ctx.has_seen_profile = true)
    (hk : ∀ e ∈ P, ValidKey e.1 ∧ ValidValue e.2) :
    parseLinesGo ctx (P.map (fun e => propDefLine e.1 e.2)) =
      some ctx.profile_collection := by
  induction P generalizing ctx with
  | nil => rfl
  | cons e P2 ih =>
    cases e with
    | mk ek ev =>
      simp only [List.map_cons, parseLinesGo]
      rw [stepLine_propDefLine ctx ek ev (hk (ek, ev) (by simp)).1 (hk (ek, ev) (by simp)).2]
      rw [hcur]
      simp only [hseen, if_true]
      rw [if_neg (by simp)]
      exact ih _ rfl rfl (fun q hq => hk q (List.mem_cons_of_mem _ hq))

theorem collUpdateProfile_singleton (s : ProfileSourceType) (n : Str) (prof : Profile)
    (f : Profile → Profile) :
    collUpdateProfile ⟨s, [(n, prof)]⟩ n f = ⟨s, [(n, f prof)]⟩ := by
  simp [collUpdateProfile]

theorem applyPropsColl_singleton (s : ProfileSourceType) (n : Str) (prof : Profile)
    (P : List (Str × Str)) :
    applyPropsColl ⟨s, [(n, prof)]⟩ n P = ⟨s, [(n, applyProfileProps prof P)]⟩ := by
  induction P generalizing prof with
  | nil => rfl
  | cons e P2 ih =>
    simp only [applyPropsColl, List.foldl_cons]
    rw [collUpdateProfile_singleton]
    exact ih _

theorem applyProfileProps_keyword (prof : Profile) (P : List (Str × Str)) :
    (applyProfileProps prof P).has_profile_keyword = prof.has_profile_keyword := by
  induction P generalizing prof with
  | nil => rfl
  | cons e P2 ih =>
    simp only [applyProfileProps, List.foldl_cons]
    rw [show (P2.foldl (fun pr q => s_profile_add_property pr q.1 q.2)
      (s_profile_add_property prof e.1 e.2)) =
      applyProfileProps (s_profile_add_property prof e.1 e.2) P2 from rfl]
    rw [ih]
    rfl

/-! ### Buffer/line round trip -/

theorem splitOnChar_ne_nil (sep : Char) (s : Str) : splitOnChar sep s ≠ [] := by
  cases s with
  | nil => simp [splitOnChar]
  | cons c t =>
    unfold splitOnChar
    by_cases h : c = sep
    · simp [h]
    · rw [if_neg h]
      cases splitOnChar sep t <;> simp

theorem splitOnChar_append_free (sep : Char) (l s : Str) (h : ∀ c ∈ l, c ≠ sep)
    (hd : Str) (tl : List Str) (hs : splitOnChar sep s = hd :: tl) :
    splitOnChar sep (l ++ s) = (l ++ hd) :: tl := by
  induction l with
  | nil => simpa using hs
  | cons c t ih =>
    have hc : c ≠ sep := h c (List.mem_cons_self _ _)
    simp only [List.cons_append]
    unfold splitOnChar
    rw [if_neg hc]
    rw [ih (fun d hd2 => h d (List.mem_cons_of_mem _ hd2))]

theorem splitOnChar_joinLines (lines : List Str) (h1 : lines ≠ [])
    (h2 : ∀ l ∈ lines, ∀ c ∈ l, c ≠ '\n') :
    splitOnChar '\n' (joinLines lines) = lines := by
  induction lines with
  | nil => exact absurd rfl h1
  | cons l ls ih =>
    cases ls with
    | nil =>
      simp only [joinLines]
      have := splitOnChar_append_free '\n' l [] (h2 l (by simp)) [] []
        (by simp [splitOnChar])
      simpa using this
    | cons l2 ls2 =>
      have hrec := ih (by simp) (fun q hq => h2 q (List.mem_cons_of_mem _ hq))
      show splitOnChar '\n' (l ++ '\n' :: joinLines (l2 :: ls2)) = l :: l2 :: ls2
      have hsplit : splitOnChar '\n' ('\n' :: joinLines (l2 :: ls2)) = [] :: l2 :: ls2 := by
        unfold splitOnChar
        rw [if_pos rfl]
        rw [hrec]
      have := splitOnChar_append_free '\n' l ('\n' :: joinLines (l2 :: ls2))
        (h2 l (by simp)) [] (l2 :: ls2) hsplit
      simpa using this

theorem propDefLine_newline_free (k v : Str) (hk : ValidKey k) (hv : ValidValue v) :
    ∀ c ∈ propDefLine k v, c ≠ '\n' := by
  intro c hc
  unfold propDefLine at hc
  rcases List.mem_append.mp hc with h1 | h1
  · intro habs
    subst habs
    have := id_not_ws _ (hk.2 _ h1)
    exact absurd this (by decide)
  · rcases List.mem_cons.mp h1 with h2 | h2
    · subst h2; decide
    · intro habs
      subst habs
      have := (hv _ h2).1
      exact absurd this (by decide)

/-- C2: For every Config-sourced parse whose input declares both [profile default]
and [default] (in either order), the resulting collection contains exactly one
profile named default, and its properties are exactly those declared under the
profile-prefixed declaration; the unprefixed declaration's properties are
discarded entirely, not merged in. -/
theorem config_default_prefixed_declaration_wins (P1 P2 : List (Str × Str))
    (h1 : ∀ e ∈ P1, ValidKey e.1 ∧ ValidValue e.2)
    (h2 : ∀ e ∈ P2, ValidKey e.1 ∧ ValidValue e.2) :
    aws_profile_collection_new_from_buffer
        (joinLines (configLinesPrefixedFirst P1 P2)) .config =
      some ⟨.config, [( "default".toList,
        applyProfileProps (aws_profile_new ("default".toList) true) P1)]⟩ ∧
    aws_profile_collection_new_from_buffer
        (joinLines (configLinesUnprefixedFirst P1 P2)) .config =
      some ⟨.config, [( "default".toList,
        applyProfileProps (aws_profile_new ("default".toList) true) P1)]⟩ := by
  constructor
  · have hfree : ∀ l ∈ configLinesPrefixedFirst P1 P2, ∀ c ∈ l, c ≠ '\n' := by
      intro l hl
      unfold configLinesPrefixedFirst at hl
      rcases List.mem_cons.mp hl with hpd | hrest
      · subst hpd; decide
      · rcases List.mem_append.mp hrest with hmap | hcons
        · obtain ⟨e, he, rfl⟩ := List.mem_map.mp hmap
          exact propDefLine_newline_free e.1 e.2 (h1 e he).1 (h1 e he).2
        · rcases List.mem_cons.mp hcons with hd | hmap2
          · subst hd; decide
          · obtain ⟨e, he, rfl⟩ := List.mem_map.mp hmap2
            exact propDefLine_newline_free e.1 e.2 (h2 e he).1 (h2 e he).2
    have hsplit := splitOnChar_joinLines (configLinesPrefixedFirst P1 P2)
      (by simp [configLinesPrefixedFirst]) hfree
    unfold aws_profile_collection_new_from_buffer s_aws_profile_collection_new_internal
    rw [hsplit]
    have step1 : parseLinesGo (initialParseContext .config)
        (configLinesPrefixedFirst P1 P2) =
        parseLinesGo
          ⟨⟨.config, [( "default".toList, aws_profile_new ("default".toList) true)]⟩,
            some ("default".toList), none, .noError, true⟩
          (P1.map (fun e => propDefLine e.1 e.2) ++
            ("[default]".toList :: P2.map (fun e => propDefLine e.1 e.2))) := rfl
    rw [step1]
    have step2 := parseLinesGo_props P1
      ("[default]".toList :: P2.map (fun e => propDefLine e.1 e.2))
      ⟨⟨.config, [( "default".toList, aws_profile_new ("default".toList) true)]⟩,
        some ("default".toList), none, .noError, true⟩
      ("default".toList) h1 rfl (by decide)
    rw [step2]
    dsimp only
    rw [applyPropsColl_singleton]
    have step3 : parseLinesGo
        ⟨⟨.config, [( "default".toList,
            applyProfileProps (aws_profile_new ("default".toList) true) P1)]⟩,
          some ("default".toList), lastKeyOpt P1 none, .noError, true⟩
        ("[default]".toList :: P2.map (fun e => propDefLine e.1 e.2)) =
        parseLinesGo
          ⟨⟨.config, [( "default".toList,
              applyProfileProps (aws_profile_new ("default".toList) true) P1)]⟩,
            none, none, .noError, true⟩
          (P2.map (fun e => propDefLine e.1 e.2)) := by
      simp only [parseLinesGo]
      rw [stepLine_default]
      rw [add_default_nokw_superseded _ (by rw [applyProfileProps_keyword]; rfl)]
      dsimp only
      rw [if_neg (by decide)]
    rw [step3]
    exact parseLinesGo_props_skip P2 _ rfl rfl h2
  · have hfree : ∀ l ∈ configLinesUnprefixedFirst P1 P2, ∀ c ∈ l, c ≠ '\n' := by
      intro l hl
      unfold configLinesUnprefixedFirst at hl
      rcases List.mem_cons.mp hl with hpd | hrest
      · subst hpd; decide
      · rcases List.mem_append.mp hrest with hmap | hcons
        · obtain ⟨e, he, rfl⟩ := List.mem_map.mp hmap
          exact propDefLine_newline_free e.1 e.2 (h2 e he).1 (h2 e he).2
        · rcases List.mem_cons.mp hcons with hd | hmap2
          · subst hd; decide
          · obtain ⟨e, he, rfl⟩ := List.mem_map.mp hmap2
            exact propDefLine_newline_free e.1 e.2 (h1 e he).1 (h1 e he).2
    have hsplit := splitOnChar_joinLines (configLinesUnprefixedFirst P1 P2)
      (by simp [configLinesUnprefixedFirst]) hfree
    unfold aws_profile_collection_new_from_buffer s_aws_profile_collection_new_internal
    rw [hsplit]
    have step1 : parseLinesGo (initialParseContext .config)
        (configLinesUnprefixedFirst P1 P2) =
        parseLinesGo
          ⟨⟨.config, [( "default".toList, aws_profile_new ("default".toList) false)]⟩,
            some ("default".toList), none, .noError, true⟩
          (P2.map (fun e => propDefLine e.1 e.2) ++
            ("[profile default]".toList :: P1.map (fun e => propDefLine e.1 e.2))) := rfl
    rw [step1]
    have step2 := parseLinesGo_props P2
      ("[profile default]".toList :: P1.map (fun e => propDefLine e.1 e.2))
      ⟨⟨.config, [( "default".toList, aws_profile_new ("default".toList) false)]⟩,
        some ("default".toList), none, .noError, true⟩
      ("default".toList) h2 rfl (by decide)
    rw [step2]
    dsimp only
    rw [applyPropsColl_singleton]
    have step3 : parseLinesGo
        ⟨⟨.config, [( "default".toList,
            applyProfileProps (aws_profile_new ("default".toList) false) P2)]⟩,
          some ("default".toList), lastKeyOpt P2 none, .noError, true⟩
        ("[profile default]".toList :: P1.map (fun e => propDefLine e.1 e.2)) =
        parseLinesGo
          ⟨⟨.config, [( "default".toList, aws_profile_new ("default".toList) true)]⟩,
            some ("default".toList), none, .noError, true⟩
          (P1.map (fun e => propDefLine e.1 e.2)) := by
      simp only [parseLinesGo]
      rw [stepLine_profile_default]
      rw [add_default_kw_stomps _ (by rw [applyProfileProps_keyword]; rfl)]
      dsimp only
      rw [if_neg (by decide)]
    rw [step3]
    have step4 := parseLinesGo_props P1 []
      ⟨⟨.config, [( "default".toList, aws_profile_new ("default".toList) true)]⟩,
        some ("default".toList), none, .noError, true⟩
      ("default".toList) h1 rfl (by decide)
    rw [List.append_nil] at step4
    rw [step4]
    dsimp only
    rw [applyPropsColl_singleton]
    rfl

/-- C2 witness: both orders at a concrete pair of property runs that collide on
the same key with different values. -/
theorem config_default_prefixed_declaration_wins_witness :
    aws_profile_collection_new_from_buffer
        (joinLines (configLinesPrefixedFirst [( ['a'], ['1'])] [( ['a'], ['2'])])) .config =
      some ⟨.config, [( "default".toList,
        applyProfileProps (aws_profile_new ("default".toList) true) [( ['a'], ['1'])])]⟩ ∧
    aws_profile_collection_new_from_buffer
        (joinLines (configLinesUnprefixedFirst [( ['a'], ['1'])] [( ['a'], ['2'])])) .config =
      some ⟨.config, [( "default".toList,
        applyProfileProps (aws_profile_new ("default".toList) true) [( ['a'], ['1'])])]⟩ :=
  config_default_prefixed_declaration_wins [( ['a'], ['1'])] [( ['a'], ['2'])]
    (by decide) (by decide)

/-! ### Lookup through in-place profile/property updates -/

theorem tableFind_mapAt_self (t : List (Str × α)) (k : Str) (f : α → α) :
    tableFind (t.map (fun e => if e.1 = k then (e.1, f e.2) else e)) k =
      (tableFind t k).map f := by
  induction t with
  | nil => simp [tableFind]
  | cons e rest ih =>
    cases e with
    | mk k2 v2 =>
      by_cases h : k2 = k
      · subst h
        simp only [List.map_cons, ite_true]
        simp only [tableFind, ite_true]
        rfl
      · simp only [List.map_cons]
        rw [if_neg h]
        simp only [tableFind]
        rw [if_neg h, if_neg h]
        exact ih

theorem tableFind_mapAt_ne (t : List (Str × α)) (k q : Str) (hq : q ≠ k) (f : α → α) :
    tableFind (t.map (fun e => if e.1 = k then (e.1, f e.2) else e)) q = tableFind t q := by
  induction t with
  | nil => simp [tableFind]
  | cons e rest ih =>
    cases e with
    | mk k2 v2 =>
      by_cases h : k2 = k
      · subst h
        simp only [List.map_cons, ite_true]
        simp only [tableFind]
        rw [if_neg (fun habs => hq habs.symm), if_neg (fun habs => hq habs.symm)]
        exact ih
      · simp only [List.map_cons]
        rw [if_neg h]
        simp only [tableFind]
        by_cases h3 : k2 = q
        · rw [if_pos h3, if_pos h3]
        · rw [if_neg h3, if_neg h3]
          exact ih

theorem get_profile_collUpdateProfile_self (c : ProfileCollection) (pn : Str)
    (f : Profile → Profile) :
    aws_profile_collection_get_profile (collUpdateProfile c pn f) pn =
      (aws_profile_collection_get_profile c pn).map f := by
  unfold aws_profile_collection_get_profile collUpdateProfile
  exact tableFind_mapAt_self c.profiles pn f

theorem get_property_add_property_self (prof : Profile) (k v : Str) :
    aws_profile_get_property (s_profile_add_property prof k v) k =
      some (aws_profile_property_new k v) := by
  unfold aws_profile_get_property s_profile_add_property
  exact tableFind_put_self _ _ _

theorem no_pair_key_eq_value (k v : Str) (hk : ValidKey k) (hv : ValidValue v)
    (hvne : v ≠ []) : NoWsCommentPair (k ++ ' ' :: '=' :: ' ' :: v) := by
  apply no_pair_append
  · exact no_pair_of_no_ws k (fun d hd => id_not_ws d (hk.2 d hd))
  · cases v with
    | nil => exact absurd rfl hvne
    | cons d v2 =>
      refine ⟨by decide, ⟨by decide, ⟨?_, ?_⟩⟩⟩
      · intro habs
        exact absurd habs.2 (by simp [(hv d (by simp)).2.1])
      · exact no_pair_of_no_ws (d :: v2) (fun e he => (hv e he).1)
  · intro x hx y hy
    simp only [List.head?_cons, Option.mem_def, Option.some.injEq] at hy
    subst hy
    intro habs
    exact absurd habs.2 (by decide)

theorem stepLine_lineWsComment (ctx : ParseContext) (k v c pn : Str)
    (hk : ValidKey k) (hv : ValidValue v) (hvne : v ≠ [])
    (hcCR : ∀ ch ∈ c, s_is_carriage_return ch = false)
    (hcur : ctx.current_profile = some pn) :
    s_parse_and_apply_line_to_profile_collection ctx (lineWsComment k v c) =
      { ctx with
        profile_collection := collUpdateProfile ctx.profile_collection pn
          (fun prof => s_profile_add_property prof k v),
        current_property := some k } := by
  obtain ⟨hke, hkid⟩ := hk
  cases hkline : k with
  | nil => exact absurd hkline hke
  | cons c0 t0 =>
    subst hkline
    have hid0 : s_is_identifier c0 = true := hkid c0 (List.mem_cons_self _ _)
    have hCR : rightTrimPred (lineWsComment (c0 :: t0) v c) s_is_carriage_return
        = lineWsComment (c0 :: t0) v c := by
      apply rightTrimPred_eq_self_of_all
      intro ch hch
      unfold lineWsComment at hch
      rcases List.mem_append.mp hch with hc1 | hc1
      · exact id_not_cr ch (hkid ch hc1)
      · rcases List.mem_cons.mp hc1 with h2 | h2
        · subst h2; decide
        · rcases List.mem_cons.mp h2 with h3 | h3
          · subst h3; decide
          · rcases List.mem_cons.mp h3 with h4 | h4
            · subst h4; decide
            · rcases List.mem_append.mp h4 with h5 | h5
              · exact ws_not_cr_of_false ch (hv ch h5).1
              · rcases List.mem_cons.mp h5 with h6 | h6
                · subst h6; decide
                · rcases List.mem_cons.mp h6 with h7 | h7
                  · subst h7; decide
                  · exact hcCR ch h7
    have hstep := stepLine_eq_parse_property ctx (lineWsComment (c0 :: t0) v c) c0
      (t0 ++ ' ' :: '=' :: ' ' :: (v ++ ' ' :: '#' :: c))
      (by simp [lineWsComment]) hid0 hCR
    rw [hstep]
    have hassoc : lineWsComment (c0 :: t0) v c =
        ((c0 :: t0) ++ ' ' :: '=' :: ' ' :: v) ++ ' ' :: '#' :: c := by
      simp [lineWsComment]
    have htwc : s_trim_trailing_whitespace_comment (lineWsComment (c0 :: t0) v c)
        = (c0 :: t0) ++ ' ' :: '=' :: ' ' :: v := by
      rw [hassoc]
      exact twc_break _ ' ' '#' c
        (no_pair_key_eq_value (c0 :: t0) v ⟨by simp, hkid⟩ hv hvne) (by decide) (by decide)
    have hrt : rightTrimPred ((c0 :: t0) ++ ' ' :: '=' :: ' ' :: v) s_is_whitespace
        = (c0 :: t0) ++ ' ' :: '=' :: ' ' :: v := by
      have hassoc2 : (c0 :: t0) ++ ' ' :: '=' :: ' ' :: v =
          ((c0 :: t0) ++ [' ', '=', ' ']) ++ v := by simp
      rw [hassoc2]
      apply rightTrimPred_append_all_false _ _ _ hvne
      intro ch hch
      exact (hv ch hch).1
    have hcore := s_parse_property_core ctx (lineWsComment (c0 :: t0) v c)
      ((c0 :: t0) ++ [' ']) (c0 :: t0) (' ' :: v)
      (by rw [htwc, hrt]; simp)
      (by simp)
      (by
        intro ch hch
        rcases List.mem_append.mp hch with h1 | h1
        · exact id_not_assignment ch (hkid ch h1)
        · rcases List.mem_cons.mp h1 with h2 | h2
          · subst h2; decide
          · cases h2)
      (by
        rw [rightTrimPred_concat_true _ _ _ (by decide)]
        exact rightTrimPred_eq_self_of_all _ _ (fun ch hch => id_not_ws ch (hkid ch hch)))
      hkid
    rw [hcore]
    have hsp : s_is_whitespace ' ' = true := by decide
    have hval : ((' ' :: v).dropWhile s_is_assignment_operator).dropWhile s_is_whitespace
        = v := by
      rw [dropWhile_cons_false _ _ _ (by decide)]
      rw [show (' ' :: v).dropWhile s_is_whitespace = v.dropWhile s_is_whitespace by
        simp [List.dropWhile_cons, hsp]]
      exact dropWhile_eq_self_of_all_false _ _ (fun ch hch => (hv ch hch).1)
    rw [hval, hcur]

theorem stepLine_lineBareComment (ctx : ParseContext) (k v c pn : Str)
    (hk : ValidKey k) (hv : ValidValue v) (hvne : v ≠ [])
    (hcWs : ∀ ch ∈ c, s_is_whitespace ch = false)
    (hcur : ctx.current_profile = some pn) :
    s_parse_and_apply_line_to_profile_collection ctx (lineBareComment k v c) =
      { ctx with
        profile_collection := collUpdateProfile ctx.profile_collection pn
          (fun prof => s_profile_add_property prof k (v ++ '#' :: c)),
        current_property := some k } := by
  obtain ⟨hke, hkid⟩ := hk
  cases hkline : k with
  | nil => exact absurd hkline hke
  | cons c0 t0 =>
    subst hkline
    have hid0 : s_is_identifier c0 = true := hkid c0 (List.mem_cons_self _ _)
    have hCR : rightTrimPred (lineBareComment (c0 :: t0) v c) s_is_carriage_return
        = lineBareComment (c0 :: t0) v c := by
      apply rightTrimPred_eq_self_of_all
      intro ch hch
      unfold lineBareComment at hch
      rcases List.mem_append.mp hch with hc1 | hc1
      · exact id_not_cr ch (hkid ch hc1)
      · rcases List.mem_cons.mp hc1 with h2 | h2
        · subst h2; decide
        · rcases List.mem_cons.mp h2 with h3 | h3
          · subst h3; decide
          · rcases List.mem_cons.mp h3 with h4 | h4
            · subst h4; decide
            · rcases List.mem_append.mp h4 with h5 | h5
              · exact ws_not_cr_of_false ch (hv ch h5).1
              · rcases List.mem_cons.mp h5 with h6 | h6
                · subst h6; decide
                · exact ws_not_cr_of_false ch (hcWs ch h6)
    have hstep := stepLine_eq_parse_property ctx (lineBareComment (c0 :: t0) v c) c0
      (t0 ++ ' ' :: '=' :: ' ' :: (v ++ '#' :: c))
      (by simp [lineBareComment]) hid0 hCR
    rw [hstep]
    have hnopair : NoWsCommentPair (lineBareComment (c0 :: t0) v c) := by
      unfold lineBareComment
      apply no_pair_append
      · exact no_pair_of_no_ws _ (fun d hd => id_not_ws d (hkid d hd))
      · cases hvc : v with
        | nil => exact absurd hvc hvne
        | cons d v2 =>
          refine ⟨by decide, ⟨by decide, ⟨?_, ?_⟩⟩⟩
          · intro habs
            exact absurd habs.2 (by simp [(hv d (by rw [hvc]; simp)).2.1])
          · apply no_pair_of_no_ws
            intro e he
            rcases List.mem_cons.mp he with h0 | h0
            · rw [h0]
              exact (hv d (by rw [hvc]; exact List.mem_cons_self _ _)).1
            · rcases List.mem_append.mp h0 with h1 | h1
              · exact (hv e (by rw [hvc]; exact List.mem_cons_of_mem _ h1)).1
              · rcases List.mem_cons.mp h1 with h2 | h2
                · subst h2; decide
                · exact hcWs e h2
      · intro x hx y hy
        simp only [List.head?_cons, Option.mem_def, Option.some.injEq] at hy
        subst hy
        intro habs
        exact absurd habs.2 (by decide)
    have htwc : s_trim_trailing_whitespace_comment (lineBareComment (c0 :: t0) v c)
        = lineBareComment (c0 :: t0) v c := twc_eq_self_of_no_pair _ hnopair
    have hrt : rightTrimPred (lineBareComment (c0 :: t0) v c) s_is_whitespace
        = lineBareComment (c0 :: t0) v c := by
      unfold lineBareComment
      have hassoc2 : (c0 :: t0) ++ ' ' :: '=' :: ' ' :: (v ++ '#' :: c) =
          ((c0 :: t0) ++ [' ', '=', ' ']) ++ (v ++ '#' :: c) := by simp
      rw [hassoc2]
      apply rightTrimPred_append_all_false _ _ _ (by simp)
      intro ch hch
      rcases List.mem_append.mp hch with h1 | h1
      · exact (hv ch h1).1
      · rcases List.mem_cons.mp h1 with h2 | h2
        · subst h2; decide
        · exact hcWs ch h2
    have hcore := s_parse_property_core ctx (lineBareComment (c0 :: t0) v c)
      ((c0 :: t0) ++ [' ']) (c0 :: t0) (' ' :: (v ++ '#' :: c))
      (by rw [htwc, hrt]; simp [lineBareComment])
      (by simp)
      (by
        intro ch hch
        rcases List.mem_append.mp hch with h1 | h1
        · exact id_not_assignment ch (hkid ch h1)
        · rcases List.mem_cons.mp h1 with h2 | h2
          · subst h2; decide
          · cases h2)
      (by
        rw [rightTrimPred_concat_true _ _ _ (by decide)]
        exact rightTrimPred_eq_self_of_all _ _ (fun ch hch => id_not_ws ch (hkid ch hch)))
      hkid
    rw [hcore]
    have hsp : s_is_whitespace ' ' = true := by decide
    have hval : ((' ' :: (v ++ '#' :: c)).dropWhile s_is_assignment_operator).dropWhile
        s_is_whitespace = v ++ '#' :: c := by
      rw [dropWhile_cons_false _ _ _ (by decide)]
      rw [show (' ' :: (v ++ '#' :: c)).dropWhile s_is_whitespace =
        (v ++ '#' :: c).dropWhile s_is_whitespace by simp [List.dropWhile_cons, hsp]]
      apply dropWhile_eq_self_of_all_false
      intro ch hch
      rcases List.mem_append.mp hch with h1 | h1
      · exact (hv ch h1).1
      · rcases List.mem_cons.mp h1 with h2 | h2
        · subst h2; decide
        · exact hcWs ch h2
    rw [hval, hcur]

/-- C5: For every property-definition line, a trailing hash/semicolon comment is
stripped from the stored value exactly when the comment token is preceded by at
least one whitespace character: key = v #comment stores value v, while
key = v#comment stores value v#comment verbatim. -/
theorem trailing_comment_stripped_iff_whitespace (ctx : ParseContext)
    (k v cA cB pn : Str) (prof : Profile)
    (hk : ValidKey k) (hv : ValidValue v) (hvne : v ≠ [])
    (hcA : ∀ ch ∈ cA, s_is_carriage_return ch = false)
    (hcB : ∀ ch ∈ cB, s_is_whitespace ch = false)
    (hcur : ctx.current_profile = some pn)
    (hprof : aws_profile_collection_get_profile ctx.profile_collection pn = some prof) :
    (∃ prof2,
      aws_profile_collection_get_profile
        (s_parse_and_apply_line_to_profile_collection ctx
          (lineWsComment k v cA)).profile_collection pn = some prof2 ∧
      aws_profile_get_property prof2 k = some (aws_profile_property_new k v) ∧
      (aws_profile_property_new k v).value = v) ∧
    (∃ prof3,
      aws_profile_collection_get_profile
        (s_parse_and_apply_line_to_profile_collection ctx
          (lineBareComment k v cB)).profile_collection pn = some prof3 ∧
      aws_profile_get_property prof3 k =
        some (aws_profile_property_new k (v ++ '#' :: cB)) ∧
      (aws_profile_property_new k (v ++ '#' :: cB)).value = v ++ '#' :: cB) := by
  constructor
  · rw [stepLine_lineWsComment ctx k v cA pn hk hv hvne hcA hcur]
    refine ⟨s_profile_add_property prof k v, ?_, ?_, rfl⟩
    · dsimp only
      rw [get_profile_collUpdateProfile_self, hprof]
      rfl
    · exact get_property_add_property_self prof k v
  · rw [stepLine_lineBareComment ctx k v cB pn hk hv hvne hcB hcur]
    refine ⟨s_profile_add_property prof k (v ++ '#' :: cB), ?_, ?_, rfl⟩
    · dsimp only
      rw [get_profile_collUpdateProfile_self, hprof]
      rfl
    · exact get_property_add_property_self prof k (v ++ '#' :: cB)

/-- C5 witness at a concrete context, key, value and comment text. -/
theorem trailing_comment_stripped_iff_whitespace_witness :
    (∃ prof2,
      aws_profile_collection_get_profile
        (s_parse_and_apply_line_to_profile_collection
          ⟨⟨.credentials, [( ['p'], aws_profile_new ['p'] false)]⟩,
            some ['p'], none, .noError, true⟩
          (lineWsComment ['k'] ['v'] ("note".toList))).profile_collection ['p'] =
        some prof2 ∧
      aws_profile_get_property prof2 ['k'] = some (aws_profile_property_new ['k'] ['v']) ∧
      (aws_profile_property_new ['k'] ['v']).value = ['v']) ∧
    (∃ prof3,
      aws_profile_collection_get_profile
        (s_parse_and_apply_line_to_profile_collection
          ⟨⟨.credentials, [( ['p'], aws_profile_new ['p'] false)]⟩,
            some ['p'], none, .noError, true⟩
          (lineBareComment ['k'] ['v'] ("note".toList))).profile_collection ['p'] =
        some prof3 ∧
      aws_profile_get_property prof3 ['k'] =
        some (aws_profile_property_new ['k'] (['v'] ++ '#' :: "note".toList)) ∧
      (aws_profile_property_new ['k'] (['v'] ++ '#' :: "note".toList)).value =
        ['v'] ++ '#' :: "note".toList) :=
  trailing_comment_stripped_iff_whitespace
    ⟨⟨.credentials, [( ['p'], aws_profile_new ['p'] false)]⟩, some ['p'], none, .noError, true⟩
    ['k'] ['v'] ("note".toList) ("note".toList) ['p'] (aws_profile_new ['p'] false)
    (by decide) (by decide) (by decide) (by decide) (by decide) rfl (by decide)

theorem tableFind_singleton_self (k : Str) (v : α) : tableFind [(k, v)] k = some v := by
  simp [tableFind]

theorem tablePut_nil (k : Str) (v : α) : tablePut [] k v = [(k, v)] := by
  simp [tablePut, tableFind]

/-- Stepping an empty-valued property definition with a current profile stores an
empty-valued property and makes it current. -/
theorem stepLine_emptyValuedPropLine (ctx : ParseContext) (K pn : Str)
    (hK : ValidKey K) (hcur : ctx.current_profile = some pn) :
    s_parse_and_apply_line_to_profile_collection ctx (emptyPropLine K) =
      { ctx with
        profile_collection := collUpdateProfile ctx.profile_collection pn
          (fun prof => s_profile_add_property prof K []),
        current_property := some K } := by
  obtain ⟨hke, hkid⟩ := hK
  cases hkline : K with
  | nil => exact absurd hkline hke
  | cons c0 t0 =>
    subst hkline
    have hid0 : s_is_identifier c0 = true := hkid c0 (List.mem_cons_self _ _)
    have hCR : rightTrimPred (emptyPropLine (c0 :: t0)) s_is_carriage_return
        = emptyPropLine (c0 :: t0) := by
      apply rightTrimPred_eq_self_of_all
      intro ch hch
      unfold emptyPropLine at hch
      rcases List.mem_append.mp hch with h1 | h1
      · exact id_not_cr ch (hkid ch h1)
      · rcases List.mem_cons.mp h1 with h2 | h2
        · subst h2; decide
        · rcases List.mem_cons.mp h2 with h3 | h3
          · subst h3; decide
          · cases h3
    have hstep := stepLine_eq_parse_property ctx (emptyPropLine (c0 :: t0)) c0
      (t0 ++ [' ', '=']) (by simp [emptyPropLine]) hid0 hCR
    rw [hstep]
    have htwc : s_trim_trailing_whitespace_comment (emptyPropLine (c0 :: t0))
        = emptyPropLine (c0 :: t0) := by
      apply twc_eq_self_of_no_comment
      intro ch hch
      unfold emptyPropLine at hch
      rcases List.mem_append.mp hch with h1 | h1
      · exact id_not_comment ch (hkid ch h1)
      · rcases List.mem_cons.mp h1 with h2 | h2
        · subst h2; decide
        · rcases List.mem_cons.mp h2 with h3 | h3
          · subst h3; decide
          · cases h3
    have hrt : rightTrimPred (emptyPropLine (c0 :: t0)) s_is_whitespace
        = emptyPropLine (c0 :: t0) := by
      have hshape : emptyPropLine (c0 :: t0) = ((c0 :: t0) ++ [' ']) ++ ['='] := by
        simp [emptyPropLine]
      rw [hshape]
      apply rightTrimPred_append_all_false _ _ _ (by simp)
      intro ch hch
      rcases List.mem_singleton.mp hch with h1
      subst h1; decide
    have hcore := s_parse_property_core ctx (emptyPropLine (c0 :: t0))
      ((c0 :: t0) ++ [' ']) (c0 :: t0) []
      (by rw [htwc, hrt]; simp [emptyPropLine])
      (by simp)
      (by
        intro ch hch
        rcases List.mem_append.mp hch with h1 | h1
        · exact id_not_assignment ch (hkid ch h1)
        · rcases List.mem_cons.mp h1 with h2 | h2
          · subst h2; decide
          · cases h2)
      (by
        rw [rightTrimPred_concat_true _ _ _ (by decide)]
        exact rightTrimPred_eq_self_of_all _ _ (fun ch hch => id_not_ws ch (hkid ch hch)))
      hkid
    rw [hcore, hcur]
    rfl

/-- Looking up the updated profile after collUpdateProperty yields the profile with
its property table rewritten at the target key. -/
theorem get_profile_collUpdateProperty_self (c : ProfileCollection) (pn qn : Str)
    (f : ProfileProperty → ProfileProperty) (prof : Profile)
    (hp : aws_profile_collection_get_profile c pn = some prof) :
    aws_profile_collection_get_profile (collUpdateProperty c pn qn f) pn = some { prof with properties := prof.properties.map (fun e => if e.1 = qn then (e.1, f e.2) else e) } := by
  unfold collUpdateProperty
  rw [get_profile_collUpdateProfile_self, hp]
  rfl

/-- Looking up the rewritten key in a property table mapped at that key applies f. -/
theorem get_property_mapAt_self (prof : Profile) (qn : Str)
    (f : ProfileProperty → ProfileProperty) (prop : ProfileProperty)
    (hq : aws_profile_get_property prof qn = some prop) :
    aws_profile_get_property { prof with properties := prof.properties.map (fun e => if e.1 = qn then (e.1, f e.2) else e) } qn = some (f prop) := by
  unfold aws_profile_get_property at hq ⊢
  rw [tableFind_mapAt_self, hq]
  rfl

/-- Stepping an indented continuation line under an empty-valued current property:
the trimmed content is appended to the property value (after a newline), and,
because the is_empty_valued flag is still set, the content is additionally parsed
as a sub-property. -/
theorem continuation_on_contLine (ctx : ParseContext) (k v pn qn : Str)
    (prof : Profile) (prop : ProfileProperty)
    (hk : ValidKey k) (hv : ValidValue v) (hvne : v ≠ [])
    (hcurp : ctx.current_profile = some pn) (hcurq : ctx.current_property = some qn)
    (hfindp : aws_profile_collection_get_profile ctx.profile_collection pn = some prof)
    (hfindq : aws_profile_get_property prof qn = some prop)
    (hempty : prop.is_empty_valued = true) :
    s_parse_property_continuation (contLine k v) ctx = (true, { ctx with profile_collection := collUpdateProperty (collUpdateProperty ctx.profile_collection pn qn (fun p => s_profile_property_add_continuation p (k ++ ' ' :: '=' :: ' ' :: v))) pn qn (fun p => s_profile_property_add_sub_property p k v) }) := by
  obtain ⟨hke, hkid⟩ := hk
  cases hkline : k with
  | nil => exact absurd hkline hke
  | cons c0 t0 =>
    subst hkline
    have hid0 : s_is_identifier c0 = true := hkid c0 (List.mem_cons_self _ _)
    have hF1 : rightTrimPred (contLine (c0 :: t0) v) s_is_whitespace
        = contLine (c0 :: t0) v := by
      have hshape : contLine (c0 :: t0) v = (' ' :: ((c0 :: t0) ++ [' ', '=', ' '])) ++ v := by
        simp [contLine]
      rw [hshape]
      apply rightTrimPred_append_all_false _ _ _ hvne
      intro ch hch
      exact (hv ch hch).1
    have hsp : s_is_whitespace ' ' = true := by decide
    have hF2 : (contLine (c0 :: t0) v).takeWhile s_is_whitespace = [' '] := by
      unfold contLine
      rw [show (' ' :: ((c0 :: t0) ++ ' ' :: '=' :: ' ' :: v)).takeWhile s_is_whitespace =
        ' ' :: (((c0 :: t0) ++ ' ' :: '=' :: ' ' :: v).takeWhile s_is_whitespace) by
          simp [List.takeWhile_cons, hsp]]
      rw [List.cons_append, takeWhile_cons_false _ _ _ (id_not_ws c0 hid0)]
    have hF3 : (contLine (c0 :: t0) v).dropWhile s_is_whitespace
        = (c0 :: t0) ++ ' ' :: '=' :: ' ' :: v := by
      unfold contLine
      rw [show (' ' :: ((c0 :: t0) ++ ' ' :: '=' :: ' ' :: v)).dropWhile s_is_whitespace =
        ((c0 :: t0) ++ ' ' :: '=' :: ' ' :: v).dropWhile s_is_whitespace by
          simp [List.dropWhile_cons, hsp]]
      rw [List.cons_append]
      exact dropWhile_cons_false _ _ _ (id_not_ws c0 hid0)
    have hna : s_is_not_assignment_operator ' ' = true := by decide
    have hF6 : ((c0 :: t0) ++ ' ' :: '=' :: ' ' :: v).takeWhile s_is_not_assignment_operator
        = (c0 :: t0) ++ [' '] := by
      rw [takeWhile_append_all _ _ _ (fun ch hch => id_not_assignment ch (hkid ch hch))]
      rw [show (' ' :: '=' :: ' ' :: v).takeWhile s_is_not_assignment_operator = [' '] by
        rw [show (' ' :: '=' :: ' ' :: v).takeWhile s_is_not_assignment_operator =
          ' ' :: (('=' :: ' ' :: v).takeWhile s_is_not_assignment_operator) by
            simp [List.takeWhile_cons, hna]]
        rw [takeWhile_cons_false _ _ _ (by decide)]]
    have hF7 : ((c0 :: t0) ++ ' ' :: '=' :: ' ' :: v).dropWhile s_is_not_assignment_operator
        = '=' :: ' ' :: v := by
      rw [dropWhile_append_all _ _ _ (fun ch hch => id_not_assignment ch (hkid ch hch))]
      rw [show (' ' :: '=' :: ' ' :: v).dropWhile s_is_not_assignment_operator =
        ('=' :: ' ' :: v).dropWhile s_is_not_assignment_operator by
          simp [List.dropWhile_cons, hna]]
      exact dropWhile_cons_false _ _ _ (by decide)
    have hao : s_is_assignment_operator '=' = true := by decide
    have hF8a : ('=' :: ' ' :: v).takeWhile s_is_assignment_operator = ['='] := by
      rw [show ('=' :: ' ' :: v).takeWhile s_is_assignment_operator =
        '=' :: ((' ' :: v).takeWhile s_is_assignment_operator) by
          simp [List.takeWhile_cons, hao]]
      rw [takeWhile_cons_false _ _ _ (by decide)]
    have hF8b : ('=' :: ' ' :: v).dropWhile s_is_assignment_operator = ' ' :: v := by
      rw [show ('=' :: ' ' :: v).dropWhile s_is_assignment_operator =
        (' ' :: v).dropWhile s_is_assignment_operator by simp [List.dropWhile_cons, hao]]
      exact dropWhile_cons_false _ _ _ (by decide)
    have hF9 : rightTrimPred ((c0 :: t0) ++ [' ']) s_is_whitespace = c0 :: t0 := by
      rw [rightTrimPred_concat_true _ _ _ (by decide)]
      exact rightTrimPred_eq_self_of_all _ _ (fun ch hch => id_not_ws ch (hkid ch hch))
    have hF9b : trimPred (c0 :: t0) s_is_identifier = [] := by
      unfold trimPred leftTrimPred
      rw [rightTrimPred_eq_nil_of_all _ _ hkid]
      rfl
    have hF10 : (' ' :: v).dropWhile s_is_whitespace = v := by
      rw [show (' ' :: v).dropWhile s_is_whitespace = v.dropWhile s_is_whitespace by
        simp [List.dropWhile_cons, hsp]]
      exact dropWhile_eq_self_of_all_false _ _ (fun ch hch => (hv ch hch).1)
    unfold s_parse_property_continuation
    simp only [s_parse_by_character_predicate, hF1, hF2, hF3]
    rw [if_neg (by simp)]
    rw [if_neg (by simp)]
    rw [hcurp, hcurq]
    simp only
    have hflag :
        (match aws_profile_collection_get_profile
            (collUpdateProperty ctx.profile_collection pn qn
              (fun p => s_profile_property_add_continuation p
                ((c0 :: t0) ++ ' ' :: '=' :: ' ' :: v))) pn with
          | some prof2 =>
            match aws_profile_get_property prof2 qn with
            | some prop2 => prop2.is_empty_valued
            | none => false
          | none => false) = true := by
      rw [get_profile_collUpdateProperty_self ctx.profile_collection pn qn _ prof hfindp]
      show (match aws_profile_get_property { prof with properties := prof.properties.map (fun e => if e.1 = qn then (e.1, s_profile_property_add_continuation e.2 ((c0 :: t0) ++ ' ' :: '=' :: ' ' :: v)) else e) } qn with
          | some prop2 => prop2.is_empty_valued
          | none => false) = true
      rw [get_property_mapAt_self prof qn (fun p => s_profile_property_add_continuation p ((c0 :: t0) ++ ' ' :: '=' :: ' ' :: v)) prop hfindq]
      exact hempty
    rw [hflag]
    simp only [if_true]
    simp only [hF6, hF7, hF8a, hF8b]
    rw [if_neg (by simp)]
    rw [if_neg (by simp)]
    rw [hF9, hF9b]
    simp only [List.length_nil, gt_iff_lt, lt_self_iff_false, if_false]
    rw [hF10]

/-- A whitespace-indented "k = v" line is routed to the continuation handler and,
with an empty-valued current property, both appends the raw text to the value and
records the k/v pair as a sub-property. -/
theorem stepLine_contLine (ctx : ParseContext) (k v pn qn : Str)
    (prof : Profile) (prop : ProfileProperty)
    (hk : ValidKey k) (hv : ValidValue v) (hvne : v ≠ [])
    (hcurp : ctx.current_profile = some pn) (hcurq : ctx.current_property = some qn)
    (hfindp : aws_profile_collection_get_profile ctx.profile_collection pn = some prof)
    (hfindq : aws_profile_get_property prof qn = some prop)
    (hempty : prop.is_empty_valued = true) :
    s_parse_and_apply_line_to_profile_collection ctx (contLine k v) = { ctx with profile_collection := collUpdateProperty (collUpdateProperty ctx.profile_collection pn qn (fun p => s_profile_property_add_continuation p (k ++ ' ' :: '=' :: ' ' :: v))) pn qn (fun p => s_profile_property_add_sub_property p k v) } := by
  have hCR : rightTrimPred (contLine k v) s_is_carriage_return = contLine k v := by
    have hshape : contLine k v = (' ' :: (k ++ [' ', '=', ' '])) ++ v := by
      simp [contLine]
    rw [hshape]
    apply rightTrimPred_append_all_false _ _ _ hvne
    intro ch hch
    have h := (hv ch hch).1
    by_cases hc : ch = '\r'
    · subst hc
      simp [s_is_whitespace] at h
    · simp [s_is_carriage_return, hc]
  have hnws : s_is_whitespace_line (contLine k v) = false := by
    obtain ⟨hke, hkid⟩ := hk
    cases hkl : k with
    | nil => exact absurd hkl hke
    | cons c0 t0 =>
      subst hkl
      have hid0 : s_is_identifier c0 = true := hkid c0 (List.mem_cons_self _ _)
      have hsp : s_is_whitespace ' ' = true := by decide
      simp only [s_is_whitespace_line, leftTrimPred, contLine]
      rw [show (' ' :: ((c0 :: t0) ++ ' ' :: '=' :: ' ' :: v)).dropWhile s_is_whitespace = (((c0 :: t0) ++ ' ' :: '=' :: ' ' :: v).dropWhile s_is_whitespace) by simp [List.dropWhile_cons, hsp]]
      rw [List.cons_append, dropWhile_cons_false _ _ _ (id_not_ws c0 hid0)]
      rfl
  unfold s_parse_and_apply_line_to_profile_collection
  rw [hCR]
  rw [if_neg ?hskip]
  case hskip =>
    intro habs
    rcases habs with h1 | h1 | h1
    · simp [contLine] at h1
    · simp [contLine, s_is_comment_line, s_is_comment_token] at h1
    · rw [hnws] at h1
      simp at h1
  rw [decl_not_taken_of_head (contLine k v) ' ' (k ++ ' ' :: '=' :: ' ' :: v) rfl (by decide) (by decide) ctx]
  simp only
  rw [continuation_on_contLine ctx k v pn qn prof prop hk hv hvne hcurp hcurq hfindp hfindq hempty]
  simp

theorem tableRemove_singleton_ne (k1 : Str) (v1 : α) (k2 : Str) (hne : k1 ≠ k2) :
    tableRemove [(k1, v1)] k2 = [(k1, v1)] := by
  simp [tableRemove, hne]

theorem tablePut_singleton_ne (k1 : Str) (v1 : α) (k2 : Str) (v2 : α) (hne : k1 ≠ k2) :
    tablePut [(k1, v1)] k2 v2 = [(k1, v1), (k2, v2)] := by
  simp [tablePut, tableFind, hne]

/-- Two successive indented continuation lines under an empty-valued current
property: each line first appends its raw text to the property value, and only
then is stored as a sub-property, the flag staying as it was. -/
theorem two_continuations (ctx : ParseContext) (k1 v1 k2 v2 pn qn : Str)
    (prof : Profile) (prop : ProfileProperty)
    (hk1 : ValidKey k1) (hv1 : ValidValue v1) (hv1ne : v1 ≠ [])
    (hk2 : ValidKey k2) (hv2 : ValidValue v2) (hv2ne : v2 ≠ [])
    (hcurp : ctx.current_profile = some pn) (hcurq : ctx.current_property = some qn)
    (hfindp : aws_profile_collection_get_profile ctx.profile_collection pn = some prof)
    (hfindq : aws_profile_get_property prof qn = some prop)
    (hempty : prop.is_empty_valued = true) :
    ∃ prof2 prop2, aws_profile_collection_get_profile (s_parse_and_apply_line_to_profile_collection (s_parse_and_apply_line_to_profile_collection ctx (contLine k1 v1)) (contLine k2 v2)).profile_collection pn = some prof2 ∧ aws_profile_get_property prof2 qn = some prop2 ∧ prop2.value = (prop.value ++ '\n' :: (k1 ++ ' ' :: '=' :: ' ' :: v1)) ++ '\n' :: (k2 ++ ' ' :: '=' :: ' ' :: v2) ∧ prop2.is_empty_valued = prop.is_empty_valued ∧ prop2.sub_properties = tablePut (tableRemove (tablePut (tableRemove prop.sub_properties k1) k1 v1) k2) k2 v2 := by
  rw [stepLine_contLine ctx k1 v1 pn qn prof prop hk1 hv1 hv1ne hcurp hcurq hfindp hfindq hempty]
  have ha := get_profile_collUpdateProperty_self ctx.profile_collection pn qn (fun p => s_profile_property_add_continuation p (k1 ++ ' ' :: '=' :: ' ' :: v1)) prof hfindp
  have hb := get_profile_collUpdateProperty_self (collUpdateProperty ctx.profile_collection pn qn (fun p => s_profile_property_add_continuation p (k1 ++ ' ' :: '=' :: ' ' :: v1))) pn qn (fun p => s_profile_property_add_sub_property p k1 v1) _ ha
  have hc1 := get_property_mapAt_self prof qn (fun p => s_profile_property_add_continuation p (k1 ++ ' ' :: '=' :: ' ' :: v1)) prop hfindq
  have hc2 := get_property_mapAt_self _ qn (fun p => s_profile_property_add_sub_property p k1 v1) _ hc1
  rw [stepLine_contLine ({ ctx with profile_collection := collUpdateProperty (collUpdateProperty ctx.profile_collection pn qn (fun p => s_profile_property_add_continuation p (k1 ++ ' ' :: '=' :: ' ' :: v1))) pn qn (fun p => s_profile_property_add_sub_property p k1 v1) }) k2 v2 pn qn _ _ hk2 hv2 hv2ne hcurp hcurq hb hc2 hempty]
  have hd := get_profile_collUpdateProperty_self (collUpdateProperty (collUpdateProperty ctx.profile_collection pn qn (fun p => s_profile_property_add_continuation p (k1 ++ ' ' :: '=' :: ' ' :: v1))) pn qn (fun p => s_profile_property_add_sub_property p k1 v1)) pn qn (fun p => s_profile_property_add_continuation p (k2 ++ ' ' :: '=' :: ' ' :: v2)) _ hb
  have he := get_profile_collUpdateProperty_self (collUpdateProperty (collUpdateProperty (collUpdateProperty ctx.profile_collection pn qn (fun p => s_profile_property_add_continuation p (k1 ++ ' ' :: '=' :: ' ' :: v1))) pn qn (fun p => s_profile_property_add_sub_property p k1 v1)) pn qn (fun p => s_profile_property_add_continuation p (k2 ++ ' ' :: '=' :: ' ' :: v2))) pn qn (fun p => s_profile_property_add_sub_property p k2 v2) _ hd
  have hf1 := get_property_mapAt_self _ qn (fun p => s_profile_property_add_continuation p (k2 ++ ' ' :: '=' :: ' ' :: v2)) _ hc2
  have hf2 := get_property_mapAt_self _ qn (fun p => s_profile_property_add_sub_property p k2 v2) _ hf1
  exact ⟨_, _, he, hf2, rfl, rfl, rfl⟩

/-- C3 counterexample: parsing a credentials buffer with a profile declaration,
an empty-valued property definition and two indented continuation lines with
distinct keys yields a property that is flagged empty-valued and carries the two
sub-properties, but whose value is NOT the empty string: the continuation text
is appended to the value before the empty-valued flag is consulted, so the value
accumulates the raw continuation lines. -/
theorem empty_valued_continuation_value_counterexample :
    ∃ coll prof prop,
      aws_profile_collection_new_from_buffer ['[', 'p', ']', '\n', 's', ' ', '=', '\n', ' ', 'a', ' ', '=', ' ', '1', '\n', ' ', 'b', ' ', '=', ' ', '2'] .credentials = some coll ∧
      aws_profile_collection_get_profile coll ['p'] = some prof ∧
      aws_profile_get_property prof ['s'] = some prop ∧
      prop.is_empty_valued = true ∧
      prop.sub_properties = [(['a'], ['1']), (['b'], ['2'])] ∧
      prop.value = ['\n', 'a', ' ', '=', ' ', '1', '\n', 'b', ' ', '=', ' ', '2'] ∧
      prop.value ≠ [] := by
  refine ⟨_, _, _, rfl, rfl, rfl, rfl, rfl, rfl, ?_⟩
  decide

/-- C3 (amended): after a profile declaration, an empty-valued property
definition `K =` and two indented continuation lines `k1 = v1` and `k2 = v2`
with distinct keys, the property keeps is_empty_valued = true and records the
two sub-properties, but its value is the concatenation of the two raw
continuation-line texts, each preceded by a newline (not the empty string). -/
theorem empty_valued_continuation_accumulates_text (K k1 v1 k2 v2 : Str)
    (hK : ValidKey K) (hk1 : ValidKey k1) (hv1 : ValidValue v1) (hv1ne : v1 ≠ [])
    (hk2 : ValidKey k2) (hv2 : ValidValue v2) (hv2ne : v2 ≠ []) (hne : k1 ≠ k2) :
    ∃ prof prop,
      aws_profile_collection_get_profile (s_parse_and_apply_line_to_profile_collection (s_parse_and_apply_line_to_profile_collection (s_parse_and_apply_line_to_profile_collection (s_parse_and_apply_line_to_profile_collection (initialParseContext .credentials) ['[', 'p', ']']) (emptyPropLine K)) (contLine k1 v1)) (contLine k2 v2)).profile_collection ['p'] = some prof ∧
      aws_profile_get_property prof K = some prop ∧
      prop.value = '\n' :: (k1 ++ ' ' :: '=' :: ' ' :: v1) ++ '\n' :: (k2 ++ ' ' :: '=' :: ' ' :: v2) ∧
      prop.is_empty_valued = true ∧
      prop.sub_properties = [(k1, v1), (k2, v2)] := by
  have h1 : s_parse_and_apply_line_to_profile_collection (initialParseContext .credentials) ['[', 'p', ']'] = c3ctx1 := rfl
  rw [h1, stepLine_emptyValuedPropLine c3ctx1 K ['p'] hK rfl]
  obtain ⟨P, Q, hA, hB, hC, hD, hE⟩ := two_continuations ⟨⟨.credentials, [(['p'], s_profile_add_property (aws_profile_new ['p'] false) K [])]⟩, some ['p'], some K, .noError, true⟩ k1 v1 k2 v2 ['p'] K (s_profile_add_property (aws_profile_new ['p'] false) K []) (aws_profile_property_new K []) hk1 hv1 hv1ne hk2 hv2 hv2ne rfl rfl rfl (get_property_add_property_self (aws_profile_new ['p'] false) K []) rfl
  refine ⟨P, Q, hA, hB, ?_, ?_, ?_⟩
  · exact hC
  · exact hD
  · rw [hE]
    show tablePut (tableRemove (tablePut (tableRemove [] k1) k1 v1) k2) k2 v2 = [(k1, v1), (k2, v2)]
    rw [show tableRemove ([] : List (Str × Str)) k1 = [] from rfl, tablePut_nil, tableRemove_singleton_ne k1 v1 k2 hne, tablePut_singleton_ne k1 v1 k2 v2 hne]

/-- C3 witness: the amended theorem at K = "s", k1 = "a", v1 = "1", k2 = "b",
v2 = "2". -/
theorem empty_valued_continuation_accumulates_text_witness :
    ∃ prof prop,
      aws_profile_collection_get_profile (s_parse_and_apply_line_to_profile_collection (s_parse_and_apply_line_to_profile_collection (s_parse_and_apply_line_to_profile_collection (s_parse_and_apply_line_to_profile_collection (initialParseContext .credentials) ['[', 'p', ']']) (emptyPropLine ['s'])) (contLine ['a'] ['1'])) (contLine ['b'] ['2'])).profile_collection ['p'] = some prof ∧
      aws_profile_get_property prof ['s'] = some prop ∧
      prop.value = '\n' :: (['a'] ++ ' ' :: '=' :: ' ' :: ['1']) ++ '\n' :: (['b'] ++ ' ' :: '=' :: ' ' :: ['2']) ∧
      prop.is_empty_valued = true ∧
      prop.sub_properties = [(['a'], ['1']), (['b'], ['2'])] :=
  empty_valued_continuation_accumulates_text ['s'] ['a'] ['1'] ['b'] ['2']
    (by decide) (by decide) (by decide) (by decide) (by decide) (by decide)
    (by decide) (by decide)

theorem continuation_preserves_profile_fields (line : Str) (ctx : ParseContext) :
    ((s_parse_property_continuation line ctx).2).has_seen_profile = ctx.has_seen_profile ∧
    ((s_parse_property_continuation line ctx).2).current_profile = ctx.current_profile := by
  simp only [s_parse_property_continuation]
  repeat' split
  all_goals simp

theorem property_preserves_profile_fields (line : Str) (ctx : ParseContext) :
    ((s_parse_property line ctx).2).has_seen_profile = ctx.has_seen_profile ∧
    ((s_parse_property line ctx).2).current_profile = ctx.current_profile := by
  simp only [s_parse_property]
  repeat' split
  all_goals simp

/-- A line that does not trigger the declaration handler can never set the
has-seen-profile flag or the current profile. -/
theorem step_nondecl_preserves (ctx : ParseContext) (l : Str)
    (hnd : declTriggers l = false) :
    (s_parse_and_apply_line_to_profile_collection ctx l).has_seen_profile = ctx.has_seen_profile ∧
    (s_parse_and_apply_line_to_profile_collection ctx l).current_profile = ctx.current_profile := by
  simp only [declTriggers, decide_eq_false_iff_not, ne_eq, not_not] at hnd
  have hdecl : s_parse_profile_declaration (rightTrimPred l s_is_carriage_return) ctx = (false, ctx) := by
    unfold s_parse_profile_declaration
    simp only [s_parse_by_character_predicate]
    rw [if_pos hnd]
  simp only [s_parse_and_apply_line_to_profile_collection]
  split
  · exact ⟨rfl, rfl⟩
  · rw [hdecl]
    simp only [Bool.false_eq_true, if_false]
    by_cases h2 : (s_parse_property_continuation (rightTrimPred l s_is_carriage_return) ctx).1 = true
    · rw [if_pos h2]
      exact continuation_preserves_profile_fields _ ctx
    · rw [if_neg h2]
      by_cases h3 : (s_parse_property (rightTrimPred l s_is_carriage_return) ctx).1 = true
      · rw [if_pos h3]
        exact property_preserves_profile_fields _ ctx
      · rw [if_neg h3]
        exact ⟨rfl, rfl⟩

/-- Before any declaration has triggered, a property-definition line aborts the
whole parse: the step leaves a fatal error and the line loop returns none. -/
theorem parseLinesGo_stray_before_decl (pre : List Str) :
    ∀ ctx : ParseContext, (∀ l ∈ pre, declTriggers l = false) →
    ctx.has_seen_profile = false → ctx.current_profile = none →
    ∀ (post : List Str) (k v : Str), ValidKey k → ValidValue v →
    parseLinesGo ctx (pre ++ propDefLine k v :: post) = none := by
  induction pre with
  | nil =>
    intro ctx hpre hseen hcur post k v hk hv
    simp only [List.nil_append, parseLinesGo]
    rw [stepLine_propDefLine ctx k v hk hv, hcur, hseen]
    simp
  | cons l pre2 ih =>
    intro ctx hpre hseen hcur post k v hk hv
    simp only [List.cons_append, parseLinesGo]
    by_cases hf : (s_parse_and_apply_line_to_profile_collection ctx l).parse_error = .fatal
    · rw [if_pos hf]
    · rw [if_neg hf]
      have hp := step_nondecl_preserves ctx l (hpre l (List.mem_cons_self _ _))
      exact ih _ (fun x hx => hpre x (List.mem_cons_of_mem _ hx))
        (by rw [hp.1, hseen]) (by rw [hp.2, hcur]) post k v hk hv

/-- C4: a property-definition line before any bracketed declaration has been
seen is fatal — the parse of the whole line list returns no collection — while
the same line reached with the has-seen-profile flag set but no current profile
only leaves a recoverable error: it is skipped, the loop continues on the
unchanged collection, and a collection is still produced if nothing else goes
fatal. -/
theorem stray_property_line_fatal_before_recoverable_after (source : ProfileSourceType)
    (k v : Str) (hk : ValidKey k) (hv : ValidValue v) :
    (∀ pre post : List Str, (∀ l ∈ pre, declTriggers l = false) →
      parseLinesGo (initialParseContext source) (pre ++ propDefLine k v :: post) = none) ∧
    (∀ (ctx : ParseContext) (rest : List Str), ctx.has_seen_profile = true →
      ctx.current_profile = none →
      s_parse_and_apply_line_to_profile_collection ctx (propDefLine k v) = { ctx with current_property := none, parse_error := .recoverable } ∧
      parseLinesGo ctx (propDefLine k v :: rest) = parseLinesGo { ctx with current_property := none, parse_error := .recoverable } rest) ∧
    (∀ ctx : ParseContext, ctx.has_seen_profile = true → ctx.current_profile = none →
      parseLinesGo ctx [propDefLine k v] = some ctx.profile_collection) := by
  refine ⟨?_, ?_, ?_⟩
  · intro pre post hpre
    exact parseLinesGo_stray_before_decl pre _ hpre rfl rfl post k v hk hv
  · intro ctx rest hseen hcur
    have hstep : s_parse_and_apply_line_to_profile_collection ctx (propDefLine k v) = { ctx with current_property := none, parse_error := .recoverable } := by
      rw [stepLine_propDefLine ctx k v hk hv, hcur, hseen]
      rfl
    refine ⟨hstep, ?_⟩
    simp only [parseLinesGo]
    rw [hstep]
    rw [if_neg (by simp)]
  · intro ctx hseen hcur
    have hstep : s_parse_and_apply_line_to_profile_collection ctx (propDefLine k v) = { ctx with current_property := none, parse_error := .recoverable } := by
      rw [stepLine_propDefLine ctx k v hk hv, hcur, hseen]
      rfl
    simp only [parseLinesGo]
    rw [hstep]
    rw [if_neg (by simp)]

/-- C4 witness: with k = "k", v = "1", a config parse of the two lines
"#c", "k=1" returns none, while a context with the has-seen flag set and no
current profile parses the single line "k=1" into its unchanged (empty)
collection. -/
theorem stray_property_line_fatal_before_recoverable_after_witness :
    parseLinesGo (initialParseContext .config) [['#', 'c'], propDefLine ['k'] ['1']] = none ∧
    parseLinesGo ⟨⟨.config, []⟩, none, none, .noError, true⟩ [propDefLine ['k'] ['1']] = some ⟨.config, []⟩ := by
  have h := stray_property_line_fatal_before_recoverable_after .config ['k'] ['1'] (by decide) (by decide)
  exact ⟨h.1 [['#', 'c']] [] (by decide), h.2.2 ⟨⟨.config, []⟩, none, none, .noError, true⟩ rfl rfl⟩

/-- s_parse_profile_declaration handles every line whose trimmed content starts
with an opening bracket, and sets the has-seen-profile flag and clears the
current property unconditionally, before any validation; the current profile is
left cleared in every branch that (newly) reports a recoverable error. -/
theorem decl_always_resets (line : Str) (ctx : ParseContext)
    (hbp : ¬ ((rightTrimPred (s_trim_trailing_comment line) s_is_whitespace).takeWhile s_is_profile_start).length = 0) :
    (s_parse_profile_declaration line ctx).1 = true ∧
    (s_parse_profile_declaration line ctx).2.has_seen_profile = true ∧
    (s_parse_profile_declaration line ctx).2.current_property = none ∧
    ((s_parse_profile_declaration line ctx).2.parse_error = .recoverable → ctx.parse_error ≠ .recoverable → (s_parse_profile_declaration line ctx).2.current_profile = none) := by
  simp only [s_parse_profile_declaration, s_parse_by_character_predicate]
  rw [if_neg hbp]
  repeat' split
  all_goals first
    | exact ⟨rfl, rfl, rfl, fun h1 h2 => rfl⟩
    | exact ⟨rfl, rfl, rfl, fun h1 h2 => absurd h1 h2⟩

/-- A whitespace-indented continuation line reached with no current profile is a
fatal parse error (continuation handler view). -/
theorem continuation_on_contLine_no_profile (ctx : ParseContext) (k v : Str)
    (hk : ValidKey k) (hv : ValidValue v) (hvne : v ≠ [])
    (hcur : ctx.current_profile = none) :
    s_parse_property_continuation (contLine k v) ctx = (true, { ctx with parse_error := .fatal }) := by
  obtain ⟨hke, hkid⟩ := hk
  cases hkline : k with
  | nil => exact absurd hkline hke
  | cons c0 t0 =>
    subst hkline
    have hid0 : s_is_identifier c0 = true := hkid c0 (List.mem_cons_self _ _)
    have hF1 : rightTrimPred (contLine (c0 :: t0) v) s_is_whitespace
        = contLine (c0 :: t0) v := by
      have hshape : contLine (c0 :: t0) v = (' ' :: ((c0 :: t0) ++ [' ', '=', ' '])) ++ v := by
        simp [contLine]
      rw [hshape]
      apply rightTrimPred_append_all_false _ _ _ hvne
      intro ch hch
      exact (hv ch hch).1
    have hsp : s_is_whitespace ' ' = true := by decide
    have hF2 : (contLine (c0 :: t0) v).takeWhile s_is_whitespace = [' '] := by
      unfold contLine
      rw [show (' ' :: ((c0 :: t0) ++ ' ' :: '=' :: ' ' :: v)).takeWhile s_is_whitespace =
        ' ' :: (((c0 :: t0) ++ ' ' :: '=' :: ' ' :: v).takeWhile s_is_whitespace) by
          simp [List.takeWhile_cons, hsp]]
      rw [List.cons_append, takeWhile_cons_false _ _ _ (id_not_ws c0 hid0)]
    have hF3 : (contLine (c0 :: t0) v).dropWhile s_is_whitespace
        = (c0 :: t0) ++ ' ' :: '=' :: ' ' :: v := by
      unfold contLine
      rw [show (' ' :: ((c0 :: t0) ++ ' ' :: '=' :: ' ' :: v)).dropWhile s_is_whitespace =
        ((c0 :: t0) ++ ' ' :: '=' :: ' ' :: v).dropWhile s_is_whitespace by
          simp [List.dropWhile_cons, hsp]]
      rw [List.cons_append]
      exact dropWhile_cons_false _ _ _ (id_not_ws c0 hid0)
    unfold s_parse_property_continuation
    simp only [s_parse_by_character_predicate, hF1, hF2, hF3]
    rw [if_neg (by simp)]
    rw [if_neg (by simp)]
    rw [hcur]

/-- A whitespace-indented continuation line reached with no current profile is a
fatal parse error (full line dispatcher view). -/
theorem stepLine_contLine_no_profile (ctx : ParseContext) (k v : Str)
    (hk : ValidKey k) (hv : ValidValue v) (hvne : v ≠ [])
    (hcur : ctx.current_profile = none) :
    s_parse_and_apply_line_to_profile_collection ctx (contLine k v) = { ctx with parse_error := .fatal } := by
  have hCR : rightTrimPred (contLine k v) s_is_carriage_return = contLine k v := by
    have hshape : contLine k v = (' ' :: (k ++ [' ', '=', ' '])) ++ v := by
      simp [contLine]
    rw [hshape]
    apply rightTrimPred_append_all_false _ _ _ hvne
    intro ch hch
    have h := (hv ch hch).1
    by_cases hc : ch = '\r'
    · subst hc
      simp [s_is_whitespace] at h
    · simp [s_is_carriage_return, hc]
  have hnws : s_is_whitespace_line (contLine k v) = false := by
    obtain ⟨hke, hkid⟩ := hk
    cases hkl : k with
    | nil => exact absurd hkl hke
    | cons c0 t0 =>
      subst hkl
      have hid0 : s_is_identifier c0 = true := hkid c0 (List.mem_cons_self _ _)
      have hsp : s_is_whitespace ' ' = true := by decide
      simp only [s_is_whitespace_line, leftTrimPred, contLine]
      rw [show (' ' :: ((c0 :: t0) ++ ' ' :: '=' :: ' ' :: v)).dropWhile s_is_whitespace = (((c0 :: t0) ++ ' ' :: '=' :: ' ' :: v).dropWhile s_is_whitespace) by simp [List.dropWhile_cons, hsp]]
      rw [List.cons_append, dropWhile_cons_false _ _ _ (id_not_ws c0 hid0)]
      rfl
  unfold s_parse_and_apply_line_to_profile_collection
  rw [hCR]
  rw [if_neg ?hskip]
  case hskip =>
    intro habs
    rcases habs with h1 | h1 | h1
    · simp [contLine] at h1
    · simp [contLine, s_is_comment_line, s_is_comment_token] at h1
    · rw [hnws] at h1
      simp at h1
  rw [decl_not_taken_of_head (contLine k v) ' ' (k ++ ' ' :: '=' :: ' ' :: v) rfl (by decide) (by decide) ctx]
  simp only
  rw [continuation_on_contLine_no_profile ctx k v ⟨hk.1, hk.2⟩ hv hvne hcur]
  simp

/-- C10: a line whose trimmed content starts with an opening bracket is always
handled by the declaration parser, which sets the has-seen-profile flag and
clears the current property before any validation, and leaves no current
profile whenever it newly reports a recoverable error; consequently a following
property-definition line is merely skipped as recoverable while a following
continuation line is fatal. -/
theorem bracket_line_resets_profile_state (l : Str) (ctx : ParseContext)
    (hdt : declTriggers l = true) :
    (s_parse_and_apply_line_to_profile_collection ctx l).has_seen_profile = true ∧
    (s_parse_and_apply_line_to_profile_collection ctx l).current_property = none ∧
    ((s_parse_and_apply_line_to_profile_collection ctx l).parse_error = .recoverable → ctx.parse_error ≠ .recoverable → (s_parse_and_apply_line_to_profile_collection ctx l).current_profile = none) ∧
    (∀ k v : Str, ValidKey k → ValidValue v → (s_parse_and_apply_line_to_profile_collection ctx l).current_profile = none →
      s_parse_and_apply_line_to_profile_collection (s_parse_and_apply_line_to_profile_collection ctx l) (propDefLine k v) = { s_parse_and_apply_line_to_profile_collection ctx l with current_profile := none, current_property := none, parse_error := .recoverable, has_seen_profile := true }) ∧
    (∀ k v : Str, ValidKey k → ValidValue v → v ≠ [] → (s_parse_and_apply_line_to_profile_collection ctx l).current_profile = none →
      (s_parse_and_apply_line_to_profile_collection (s_parse_and_apply_line_to_profile_collection ctx l) (contLine k v)).parse_error = .fatal) := by
  have hdt2 : ¬ ((rightTrimPred (s_trim_trailing_comment (rightTrimPred l s_is_carriage_return)) s_is_whitespace).takeWhile s_is_profile_start).length = 0 := by
    simpa [declTriggers] using hdt
  obtain ⟨t, hline⟩ : ∃ t, rightTrimPred l s_is_carriage_return = '[' :: t := by
    cases hT : rightTrimPred (s_trim_trailing_comment (rightTrimPred l s_is_carriage_return)) s_is_whitespace with
    | nil =>
      rw [hT] at hdt2
      simp at hdt2
    | cons c rest =>
      by_cases hc : s_is_profile_start c = true
      · have hceq : c = '[' := by simpa [s_is_profile_start] using hc
        subst hceq
        have hpfx1 := rightTrimPred_isPrefix s_is_whitespace (s_trim_trailing_comment (rightTrimPred l s_is_carriage_return))
        rw [hT] at hpfx1
        have hpfx2 : s_trim_trailing_comment (rightTrimPred l s_is_carriage_return) <+: rightTrimPred l s_is_carriage_return := by
          simp only [s_trim_trailing_comment, s_parse_by_character_predicate]
          exact List.takeWhile_prefix _
        obtain ⟨u, hu⟩ := hpfx1.trans hpfx2
        refine ⟨rest ++ u, ?_⟩
        rw [← hu]
        simp
      · rw [hT] at hdt2
        rw [takeWhile_cons_false _ _ _ (by simpa using hc)] at hdt2
        simp at hdt2
  have hd := decl_always_resets (rightTrimPred l s_is_carriage_return) ctx hdt2
  have hstep : s_parse_and_apply_line_to_profile_collection ctx l = (s_parse_profile_declaration (rightTrimPred l s_is_carriage_return) ctx).2 := by
    simp only [s_parse_and_apply_line_to_profile_collection]
    rw [if_neg ?hskip]
    case hskip =>
      rw [hline]
      intro habs
      rcases habs with h1 | h1 | h1
      · simp at h1
      · simp [s_is_comment_line, s_is_comment_token] at h1
      · simp only [s_is_whitespace_line, leftTrimPred] at h1
        rw [dropWhile_cons_false _ _ _ (by decide)] at h1
        simp at h1
    rw [if_pos hd.1]
  rw [hstep]
  refine ⟨hd.2.1, hd.2.2.1, hd.2.2.2, ?_, ?_⟩
  · intro k v hk hv hnone
    rw [stepLine_propDefLine _ k v hk hv, hnone, hd.2.1]
    rfl
  · intro k v hk hv hvne hnone
    rw [stepLine_contLine_no_profile _ k v hk hv hvne hnone]

/-- C10 witness: the malformed declaration "[]" (rejected as recoverable) in a
fresh credentials parse still sets the has-seen flag and clears the profile
pointers, a following "k=1" property line is skipped as recoverable, and a
following continuation line " k = 1" is fatal. -/
theorem bracket_line_resets_profile_state_witness :
    (s_parse_and_apply_line_to_profile_collection (initialParseContext .credentials) ['[', ']']).has_seen_profile = true ∧
    (s_parse_and_apply_line_to_profile_collection (initialParseContext .credentials) ['[', ']']).current_property = none ∧
    s_parse_and_apply_line_to_profile_collection (s_parse_and_apply_line_to_profile_collection (initialParseContext .credentials) ['[', ']']) (propDefLine ['k'] ['1']) = { s_parse_and_apply_line_to_profile_collection (initialParseContext .credentials) ['[', ']'] with current_profile := none, current_property := none, parse_error := .recoverable, has_seen_profile := true } ∧
    (s_parse_and_apply_line_to_profile_collection (s_parse_and_apply_line_to_profile_collection (initialParseContext .credentials) ['[', ']']) (contLine ['k'] ['1'])).parse_error = .fatal := by
  have h := bracket_line_resets_profile_state ['[', ']'] (initialParseContext .credentials) (by decide)
  exact ⟨h.1, h.2.1, h.2.2.2.1 ['k'] ['1'] (by decide) (by decide) rfl, h.2.2.2.2 ['k'] ['1'] (by decide) (by decide) (by decide) rfl⟩

/-- A nonempty document with no opening bracket fails the whole parse call in
the preamble scan. -/
theorem parse_err_no_lt (st : XmlParserState α) (cb : α → aws_xml_node → α)
    (hrem : st.doc.length - st.pos ≠ 0) (hlt : memchrIdx st.doc st.pos '<' = none) :
    aws_xml_parser_parse st cb = (.err, aws_raise_error st .malformedInput) := by
  have hpre : preambleLoop (2 * st.doc.length + 2) st = .error (aws_raise_error st .malformedInput) := by
    rw [show 2 * st.doc.length + 2 = 2 * st.doc.length + 1 + 1 from rfl]
    simp only [preambleLoop]
    rw [if_neg hrem, hlt]
  unfold aws_xml_parser_parse
  rw [hpre]

/-- A nonempty document with no closing bracket fails the whole parse call in
the preamble scan. -/
theorem parse_err_no_gt (st : XmlParserState α) (cb : α → aws_xml_node → α)
    (hrem : st.doc.length - st.pos ≠ 0) (hgt : memchrIdx st.doc st.pos '>' = none) :
    aws_xml_parser_parse st cb = (.err, aws_raise_error st .malformedInput) := by
  cases hlt : memchrIdx st.doc st.pos '<' with
  | none => exact parse_err_no_lt st cb hrem hlt
  | some start =>
    have hpre : preambleLoop (2 * st.doc.length + 2) st = .error (aws_raise_error st .malformedInput) := by
      rw [show 2 * st.doc.length + 2 = 2 * st.doc.length + 1 + 1 from rfl]
      simp only [preambleLoop]
      rw [if_neg hrem, hlt, hgt]
    unfold aws_xml_parser_parse
    rw [hpre]

/-- C7 counterexample: on the document ">x<a" the first-node scan raises the
malformed-input error (no closing bracket after the opening one), yet
aws_xml_parser_parse discards that status and reports success: a malformed
fragment does not abort the whole parse call. -/
theorem xml_parse_success_despite_malformed_counterexample :
    (aws_xml_parser_parse (⟨['>', 'x', '<', 'a'], 0, (), []⟩ : XmlParserState Unit) (fun u _ => u)).1 = .ok ∧
    (aws_xml_parser_parse (⟨['>', 'x', '<', 'a'], 0, (), []⟩ : XmlParserState Unit) (fun u _ => u)).2.raised = [.malformedInput] :=
  ⟨rfl, rfl⟩

/-- C7 (amended): each malformed-input condition — no opening bracket, no
closing bracket, no matching closing tag, or an oversized tag name — raises
the single malformed-input error kind; the preamble conditions abort the parse
call itself, but once the preamble succeeds the parse call reports success
even if the first-node scan raises the error (its status is discarded). -/
theorem xml_malformed_conditions_all_raise (α : Type) :
    (∀ (st : XmlParserState α) (cb : α → aws_xml_node → α), st.doc.length - st.pos ≠ 0 → memchrIdx st.doc st.pos '<' = none → aws_xml_parser_parse st cb = (.err, aws_raise_error st .malformedInput)) ∧
    (∀ (st : XmlParserState α) (cb : α → aws_xml_node → α), st.doc.length - st.pos ≠ 0 → memchrIdx st.doc st.pos '>' = none → aws_xml_parser_parse st cb = (.err, aws_raise_error st .malformedInput)) ∧
    (∀ (st : XmlParserState α) (node : aws_xml_node), findSubstringIdx (st.doc.drop node.doc_at_body) ('<' :: '/' :: (node.name ++ ['>'])) = none → aws_xml_node_as_body st node = (.err, aws_raise_error st .malformedInput, none)) ∧
    (∀ (st : XmlParserState α) (node : aws_xml_node), 260 < node.name.length + 4 → aws_xml_node_as_body st node = (.err, aws_raise_error st .malformedInput, none)) ∧
    (∀ (st st2 : XmlParserState α) (cb : α → aws_xml_node → α), preambleLoop (2 * st.doc.length + 2) st = .ok st2 → (aws_xml_parser_parse st cb).1 = .ok) := by
  refine ⟨parse_err_no_lt, parse_err_no_gt, ?_, ?_, ?_⟩
  · intro st node hfind
    simp only [aws_xml_node_as_body, s_advance_to_closing_tag]
    split
    · rfl
    · split
      · rfl
      · rw [hfind]
  · intro st node h260
    simp only [aws_xml_node_as_body, s_advance_to_closing_tag]
    split
    · rfl
    · rfl
  · intro st st2 cb hpre
    unfold aws_xml_parser_parse
    rw [hpre]

/-- C7 witness: concrete instances of all five conjuncts. -/
theorem xml_malformed_conditions_all_raise_witness :
    aws_xml_parser_parse (⟨['x'], 0, (), []⟩ : XmlParserState Unit) (fun u _ => u) = (.err, aws_raise_error ⟨['x'], 0, (), []⟩ .malformedInput) ∧
    aws_xml_parser_parse (⟨['<'], 0, (), []⟩ : XmlParserState Unit) (fun u _ => u) = (.err, aws_raise_error ⟨['<'], 0, (), []⟩ .malformedInput) ∧
    aws_xml_node_as_body (⟨['x', 'y', 'z', 'z', 'y'], 0, (), []⟩ : XmlParserState Unit) ⟨['a'], [], 0⟩ = (.err, aws_raise_error ⟨['x', 'y', 'z', 'z', 'y'], 0, (), []⟩ .malformedInput, none) ∧
    aws_xml_node_as_body (⟨[], 0, (), []⟩ : XmlParserState Unit) ⟨List.replicate 257 'a', [], 0⟩ = (.err, aws_raise_error ⟨[], 0, (), []⟩ .malformedInput, none) ∧
    (aws_xml_parser_parse (⟨['<', 'a', '>'], 0, (), []⟩ : XmlParserState Unit) (fun u _ => u)).1 = .ok := by
  have h := xml_malformed_conditions_all_raise Unit
  exact ⟨h.1 ⟨['x'], 0, (), []⟩ (fun u _ => u) (by decide) (by decide),
    h.2.1 ⟨['<'], 0, (), []⟩ (fun u _ => u) (by decide) (by decide),
    h.2.2.1 ⟨['x', 'y', 'z', 'z', 'y'], 0, (), []⟩ ⟨['a'], [], 0⟩ (by decide),
    h.2.2.2.1 ⟨[], 0, (), []⟩ ⟨List.replicate 257 'a', [], 0⟩ (by norm_num),
    h.2.2.2.2 ⟨['<', 'a', '>'], 0, (), []⟩ ⟨['<', 'a', '>'], 0, (), []⟩ (fun u _ => u) rfl⟩

/-- C8 counterexample: traversing the children of "a" in
"<a><b>x</b><c>y</c></a>" with a name-collecting callback visits ONLY "b":
after the callback on "b", s_advance_to_closing_tag is called with the parent
"a" (source line 225), the advance to the parent's closing tag overshoots the
remaining document and no-ops, so the scan resumes inside "b"'s body and stops
at "</b>" as if it were the parent's closing tag.  The traversal the
specification describes (skip past the CHILD's closing tag) visits "b" and
"c". -/
theorem xml_traverse_child_skip_counterexample :
    (aws_xml_node_traverse (⟨sampleNestedDoc, 3, ([] : List Str), []⟩ : XmlParserState (List Str)) ⟨['a'], [], 3⟩ (fun u n => u ++ [n.name])).1 = .ok ∧
    (aws_xml_node_traverse (⟨sampleNestedDoc, 3, ([] : List Str), []⟩ : XmlParserState (List Str)) ⟨['a'], [], 3⟩ (fun u n => u ++ [n.name])).2.user = [['b']] ∧
    (xml_node_traverse_per_spec (⟨sampleNestedDoc, 3, ([] : List Str), []⟩ : XmlParserState (List Str)) ⟨['a'], [], 3⟩ (fun u n => u ++ [n.name])).2.user = [['b'], ['c']] :=
  ⟨rfl, rfl, rfl⟩

/-- C8 (amended): sibling iteration stops, with the callback context popped,
exactly at a closing tag; after a child callback the loop advances using the
PARENT node — the parent's name and the parent's body start — applied at the
current cursor, and such an advance is a no-op whenever it exceeds the
remaining document, so the cursor is in general NOT moved past the child's
closing tag. -/
theorem xml_traverse_uses_parent_for_child_skip (α : Type) :
    (∀ (fuel : Nat) (st : XmlParserState α) (node : aws_xml_node) (cb : α → aws_xml_node → α) (next endl : Nat),
      memchrIdx st.doc st.pos '<' = some next →
      memchrIdx st.doc st.pos '>' = some endl →
      st.doc[next + 1]? = some '/' →
      traverseLoop (fuel + 1) st node cb = (.ok, { st with pos := cursorAdvance st.doc.length st.pos (endl - st.pos + 1) })) ∧
    (∀ (fuel : Nat) (st : XmlParserState α) (node : aws_xml_node) (cb : α → aws_xml_node → α) (next endl : Nat),
      memchrIdx st.doc st.pos '<' = some next →
      memchrIdx st.doc st.pos '>' = some endl →
      ¬ st.doc[next + 1]? = some '/' →
      traverseLoop (fuel + 1) st node cb = traverseLoop fuel ((s_advance_to_closing_tag { st with pos := cursorAdvance st.doc.length st.pos (endl - st.pos + 1), user := cb st.user (s_load_node_decl ((st.doc.drop (next + 1)).take (endl - next - 1)) (cursorAdvance st.doc.length st.pos (endl - st.pos + 1))) } node).2.1) node cb) ∧
    (∀ (st : XmlParserState α) (node : aws_xml_node) (i : Nat),
      node.name.length + 4 ≤ st.doc.length - node.doc_at_body →
      ¬ 260 < node.name.length + 4 →
      findSubstringIdx (st.doc.drop node.doc_at_body) ('<' :: '/' :: (node.name ++ ['>'])) = some i →
      (s_advance_to_closing_tag st node).2.1.pos = cursorAdvance st.doc.length st.pos (i + node.name.length + 3)) ∧
    (∀ len pos amount : Nat, len - pos < amount → cursorAdvance len pos amount = pos) := by
  refine ⟨?_, ?_, ?_, ?_⟩
  · intro fuel st node cb next endl hlt hgt hsl
    simp only [traverseLoop]
    rw [hlt, hgt]
    simp [hsl]
  · intro fuel st node cb next endl hlt hgt hne
    simp only [traverseLoop]
    rw [hlt, hgt]
    simp [hne]
  · intro st node i hlen h260 hfind
    simp only [s_advance_to_closing_tag]
    rw [if_neg (by omega), if_neg h260, hfind]
    rfl
  · intro len pos amount h
    unfold cursorAdvance
    rw [if_neg (by omega)]

/-- C8 witness: the conjuncts at the sample document — the stop at "</b>" from
position 6, the first child iteration from position 3, the parent-based
advance no-op, and the cursorAdvance no-op itself. -/
theorem xml_traverse_uses_parent_for_child_skip_witness :
    traverseLoop 1 (⟨sampleNestedDoc, 6, ([['b']] : List Str), []⟩ : XmlParserState (List Str)) ⟨['a'], [], 3⟩ (fun u n => u ++ [n.name]) = (.ok, ⟨sampleNestedDoc, 11, [['b']], []⟩) ∧
    traverseLoop 1 (⟨sampleNestedDoc, 3, ([] : List Str), []⟩ : XmlParserState (List Str)) ⟨['a'], [], 3⟩ (fun u n => u ++ [n.name]) = traverseLoop 0 (⟨sampleNestedDoc, 6, [['b']], []⟩ : XmlParserState (List Str)) ⟨['a'], [], 3⟩ (fun u n => u ++ [n.name]) ∧
    (s_advance_to_closing_tag (⟨sampleNestedDoc, 6, ([['b']] : List Str), []⟩ : XmlParserState (List Str)) ⟨['a'], [], 3⟩).2.1.pos = 6 ∧
    cursorAdvance 23 6 20 = 6 := by
  have h := xml_traverse_uses_parent_for_child_skip (List Str)
  refine ⟨?_, ?_, ?_, ?_⟩
  · exact h.1 0 ⟨sampleNestedDoc, 6, [['b']], []⟩ ⟨['a'], [], 3⟩ (fun u n => u ++ [n.name]) 7 10 (by decide) (by decide) (by decide)
  · exact h.2.1 0 ⟨sampleNestedDoc, 3, [], []⟩ ⟨['a'], [], 3⟩ (fun u n => u ++ [n.name]) 3 5 (by decide) (by decide) (by decide)
  · exact h.2.2.1 ⟨sampleNestedDoc, 6, [['b']], []⟩ ⟨['a'], [], 3⟩ 16 (by decide) (by decide) (by decide)
  · exact h.2.2.2 23 6 20 (by decide)

set_option maxRecDepth 4000 in
/-- C9 counterexample: a node named with 257 copies of 'a' — comfortably under
260 bytes — whose closing tag is present at the very start of a document long
enough to hold it still fails body extraction: the internal scratch buffer
check rejects any name longer than 256 bytes, because the needle
"</" ++ name ++ ">" plus a terminator must fit in 260 bytes. -/
theorem xml_body_name_limit_counterexample :
    (aws_xml_node_as_body (⟨'<' :: '/' :: (List.replicate 257 'a' ++ ['>', ' ']), 0, (), []⟩ : XmlParserState Unit) ⟨List.replicate 257 'a', [], 0⟩).1 = .err ∧
    (aws_xml_node_as_body (⟨'<' :: '/' :: (List.replicate 257 'a' ++ ['>', ' ']), 0, (), []⟩ : XmlParserState Unit) ⟨List.replicate 257 'a', [], 0⟩).2.1.raised = [.malformedInput] ∧
    (List.replicate 257 'a').length ≤ 260 ∧
    findSubstringIdx (('<' :: '/' :: (List.replicate 257 'a' ++ ['>', ' '])).drop 0) ('<' :: '/' :: (List.replicate 257 'a' ++ ['>'])) = some 0 :=
  ⟨rfl, rfl, by decide, rfl⟩

/-- C9 (amended): body extraction fails with the malformed-input error
whenever the node's name exceeds 256 bytes (name + 4 bytes of closing-tag
material must fit the 260-byte scratch buffer), or when the closing tag would
not even fit in the remaining document; for a name of at most 256 bytes whose
closing tag fits and is found at offset i from the body start, it succeeds and
returns the span from the body start to the closing tag's start. -/
theorem xml_body_extraction_bound (α : Type) :
    (∀ (st : XmlParserState α) (node : aws_xml_node), 256 < node.name.length →
      (aws_xml_node_as_body st node).1 = .err ∧
      (aws_xml_node_as_body st node).2.1.raised = .malformedInput :: st.raised) ∧
    (∀ (st : XmlParserState α) (node : aws_xml_node),
      st.doc.length - node.doc_at_body < node.name.length + 4 →
      (aws_xml_node_as_body st node).1 = .err ∧
      (aws_xml_node_as_body st node).2.1.raised = .malformedInput :: st.raised) ∧
    (∀ (st : XmlParserState α) (node : aws_xml_node) (i : Nat),
      node.name.length ≤ 256 →
      node.name.length + 4 ≤ st.doc.length - node.doc_at_body →
      findSubstringIdx (st.doc.drop node.doc_at_body) ('<' :: '/' :: (node.name ++ ['>'])) = some i →
      aws_xml_node_as_body st node = (.ok, { st with pos := cursorAdvance st.doc.length st.pos (i + node.name.length + 3) }, some (node.doc_at_body, i))) := by
  refine ⟨?_, ?_, ?_⟩
  · intro st node h256
    simp only [aws_xml_node_as_body, s_advance_to_closing_tag]
    by_cases hb : node.name.length + 4 > st.doc.length - node.doc_at_body
    · rw [if_pos hb]
      exact ⟨rfl, rfl⟩
    · rw [if_neg hb, if_pos (by omega)]
      exact ⟨rfl, rfl⟩
  · intro st node hshort
    simp only [aws_xml_node_as_body, s_advance_to_closing_tag]
    rw [if_pos (by omega)]
    exact ⟨rfl, rfl⟩
  · intro st node i h256 hfit hfind
    simp only [aws_xml_node_as_body, s_advance_to_closing_tag]
    rw [if_neg (by omega), if_neg (by omega), hfind]
    rfl

/-- C9 witness: the oversized 257-byte name fails even with no document, a
too-short document fails, and the node "a" in "x</a>" succeeds with the span
(0, 1). -/
theorem xml_body_extraction_bound_witness :
    ((aws_xml_node_as_body (⟨[], 0, (), []⟩ : XmlParserState Unit) ⟨List.replicate 257 'a', [], 0⟩).1 = .err ∧
      (aws_xml_node_as_body (⟨[], 0, (), []⟩ : XmlParserState Unit) ⟨List.replicate 257 'a', [], 0⟩).2.1.raised = [.malformedInput]) ∧
    ((aws_xml_node_as_body (⟨['x'], 0, (), []⟩ : XmlParserState Unit) ⟨['a'], [], 0⟩).1 = .err ∧
      (aws_xml_node_as_body (⟨['x'], 0, (), []⟩ : XmlParserState Unit) ⟨['a'], [], 0⟩).2.1.raised = [.malformedInput]) ∧
    aws_xml_node_as_body (⟨['x', '<', '/', 'a', '>'], 0, (), []⟩ : XmlParserState Unit) ⟨['a'], [], 0⟩ = (.ok, ⟨['x', '<', '/', 'a', '>'], 5, (), []⟩, some (0, 1)) := by
  have h := xml_body_extraction_bound Unit
  exact ⟨h.1 ⟨[], 0, (), []⟩ ⟨List.replicate 257 'a', [], 0⟩ (by norm_num),
    h.2.1 ⟨['x'], 0, (), []⟩ ⟨['a'], [], 0⟩ (by decide),
    h.2.2 ⟨['x', '<', '/', 'a', '>'], 0, (), []⟩ ⟨['a'], [], 0⟩ 1 (by decide) (by decide) (by decide)⟩

end Aws
